import Mathlib

/-!
The kcp server bootstrap, `pkg/server/server.go`.

A shallow embedding of `NewServer`, `Server.Run` and of the `kcp-start-informers`
post-start hook, followed by theorems about start-up ordering, error propagation and
controller activation.

Calls into collaborators (install functions, bootstrap operations, informers) are
represented by their observable outcome, supplied by an oracle; every call the code
makes is recorded in a trace of events.
-/

namespace Kcp

/-- An error value (Go `error`); `Option Err` is a Go `error` that may be `nil`. -/
abbrev Err := String

/-! ## Configuration (`CompletedConfig`, the part read by `server.go`) -/

/-- Fields `Options.Controllers.*`. -/
structure ControllersOptions where
  EnableAll : Bool
  IndividuallyEnabled : List String
  deriving DecidableEq, Repr

/-- Fields `Options.HomeWorkspaces.*` read by `Run`. -/
structure HomeWorkspacesOptions where
  Enabled : Bool
  deriving DecidableEq, Repr

/-- Fields `Options.Virtual.*` read by `Run`. -/
structure VirtualOptions where
  Enabled : Bool
  deriving DecidableEq, Repr

/-- Fields `Options.Extra.*` read by `Run`. -/
structure ExtraOptions where
  ShardName : String
  deriving DecidableEq, Repr

/-- The options of the server. -/
structure Options where
  Controllers : ControllersOptions
  HomeWorkspaces : HomeWorkspacesOptions
  Virtual : VirtualOptions
  Extra : ExtraOptions
  deriving DecidableEq, Repr

/-- The completed configuration a server is built from. -/
structure CompletedConfig where
  Options : Options
  deriving DecidableEq, Repr

/-- Modelled from the spec: the constant `tenancyv1alpha1.RootShard` is declared outside
the files at hand; the spec calls the distinguished shard the "root" shard. -/
def RootShard : String := "root"

/-! ## Channels -/

/-- State of a Go channel that is only ever closed (`chan struct{}` used as a gate). -/
inductive Chan
  | isOpen
  | closed
  deriving DecidableEq, Repr

/-- Go `close(ch)`: closing an open channel closes it, closing a closed channel panics
(`none`). -/
def Chan.close : Chan → Option Chan
  | .isOpen => some .closed
  | .closed => none

/-! ## The server -/

/-- The `Server` struct: its configuration and the `syncedCh` gate. -/
structure Server where
  CompletedConfig : CompletedConfig
  syncedCh : Chan
  deriving DecidableEq, Repr

/-- Outcomes of the two fallible constructors called by `NewServer`. -/
structure NewServerEnv where
  CreateServerChain : Option Err
  NewDynamicDiscoverySharedInformerFactory : Option Err

/-- `NewServer`: allocates the server with a fresh (`make(chan struct{})`) gate, builds
the server chain, installs the CRD/core filter and the dynamic discovery informer
factory. -/
def NewServer (c : CompletedConfig) (env : NewServerEnv) : Except Err Server :=
  let s : Server := { CompletedConfig := c, syncedCh := .isOpen }
  match env.CreateServerChain with
  | some err => .error err
  | none =>
    match env.NewDynamicDiscoverySharedInformerFactory with
    | some err => .error err
    | none => .ok s

/-! ## Events -/

/-- The two post-start hooks registered by `Run`. -/
inductive Hook
  | kcpBootstrapPolicy
  | kcpStartInformers
  deriving DecidableEq, Repr

/-- The calls `Run` makes that return an `error`, in source order. -/
inductive Step
  | AddPostStartHook (h : Hook)
  | installKubeNamespaceController
  | installClusterRoleAggregationController
  | installKubeServiceAccountController
  | installKubeServiceAccountTokenController
  | installRootCAConfigMapController
  | installApiResourceController
  | installSyncTargetHeartbeatController
  | installVirtualWorkspaceURLsController
  | installWorkspaceScheduler
  | installWorkspaceDeletionController
  | installHomeWorkspaces
  | installWorkloadResourceScheduler
  | installAPIBindingController
  | installAPIExportController
  | installWorkloadNamespaceScheduler
  | installWorkloadPlacementScheduler
  | installSchedulingLocationStatusController
  | installSchedulingPlacementController
  | installWorkloadsAPIExportController
  | installWorkloadsAPIExportCreateController
  | installDefaultPlacementController
  | installKubeQuotaController
  | installVirtualWorkspaces
  | installVirtualWorkspacesRedirect
  | WriteKubeConfig
  | PrepareRun
  deriving DecidableEq, Repr

/-- The phases of the `kcp-start-informers` hook, in source order. -/
inductive Phase
  | InfrastructureCacheSync
  | SystemSchemaBootstrap
  | ShardWorkspaceBootstrap
  | StartDependentWatchers
  | PollForMinimalReadiness
  | RootPhase0
  | IdentityResolutionLoop
  | SecondCacheSync
  | MarkReady
  | RootPhase1
  deriving DecidableEq, Repr

/-- What a trace records: a call made by `Run`, and for the hook the start of a phase,
its successful completion, or its abort (error, stop signal observed, or panic). -/
inductive Event
  | call (s : Step)
  | start (p : Phase)
  | done (p : Phase)
  | abort (p : Phase)
  deriving DecidableEq, Repr

/-! ## Polling (`k8s.io/apimachinery/pkg/util/wait`) -/

/-- How a poll ended: the condition held, an error was returned, or the poll is still
waiting after the rounds considered. -/
inductive PollResult
  | ok
  | err (e : Err)
  | pending
  deriving DecidableEq, Repr

/-- Result of a poll together with the number of times the condition was called. -/
structure PollOutcome where
  calls : Nat
  result : PollResult
  deriving DecidableEq, Repr

/-- The error a poll returns when its context is cancelled. -/
def ErrWaitTimeout : Err := "timed out waiting for the condition"

/-- Modelled from the spec: the polling loop of the `wait` library ("poll, fixed interval,
unbounded retries, until success or cancellation"). In round `n` (after `n` calls of the
condition) either the cancellation of the context is observed and the poll returns an
error, or the condition is called: an error ends the poll with that error, `true` ends it
with success, `false` leads to the next round. `fuel` bounds the rounds considered. -/
def WaitForWithContext (cancelled : Nat → Bool) (condition : Nat → Bool × Option Err) :
    Nat → Nat → PollOutcome
  | 0, n => ⟨n, .pending⟩
  | fuel + 1, n =>
    if cancelled n then ⟨n, .err ErrWaitTimeout⟩
    else
      match condition n with
      | (_, some e) => ⟨n + 1, .err e⟩
      | (true, none) => ⟨n + 1, .ok⟩
      | (false, none) => WaitForWithContext cancelled condition fuel (n + 1)

/-- Modelled from the spec: `wait.PollInfiniteWithContext`, which waits one interval before
the first call of the condition. -/
def PollInfiniteWithContext (cancelled : Nat → Bool) (condition : Nat → Bool × Option Err)
    (fuel : Nat) : PollOutcome :=
  WaitForWithContext cancelled condition fuel 0

/-- Modelled from the spec: `wait.PollImmediateInfiniteWithContext`, which calls the
condition once before the first wait. -/
def PollImmediateInfiniteWithContext (cancelled : Nat → Bool)
    (condition : Nat → Bool × Option Err) (fuel : Nat) : PollOutcome :=
  match condition 0 with
  | (_, some e) => ⟨1, .err e⟩
  | (true, none) => ⟨1, .ok⟩
  | (false, none) => WaitForWithContext cancelled condition fuel 1

/-! ## The `kcp-start-informers` hook -/

/-- What the collaborators of the hook do in one run. -/
structure HookEnv where
  /-- `ctx.StopCh` is closed when the first pair of `WaitForCacheSync` calls returns. -/
  stopAfterFirstSync : Bool
  /-- Result of `systemcrds.Bootstrap`. -/
  systemcrdsBootstrap : Option Err
  /-- Result of `configshard.Bootstrap`. -/
  configshardBootstrap : Option Err
  /-- `HasSynced()` of the APIExport and of the APIBinding informer at the n-th call of
  the readiness condition. -/
  hasSynced : Nat → Bool × Bool
  /-- Cancellation is observed by the readiness poll in round `n`. -/
  readinessCancelled : Nat → Bool
  /-- Result of `configrootphase0.Bootstrap`. -/
  configrootphase0Bootstrap : Option Err
  /-- Result of the n-th call of `s.resolveIdentities`. -/
  resolveIdentities : Nat → Option Err
  /-- Cancellation is observed by the identity poll in round `n`. -/
  identityCancelled : Nat → Bool
  /-- `ctx.StopCh` is closed when the second `WaitForCacheSync` returns. -/
  stopAfterSecondSync : Bool
  /-- Result of `configroot.Bootstrap`. -/
  configrootBootstrap : Option Err

/-- How a run of the hook ended: it returned (an error or `nil`), it panicked, or it is
still inside a poll after the rounds considered. -/
inductive HookResult
  | returned (err : Option Err)
  | panicked
  | polling
  deriving DecidableEq, Repr

/-- Observable outcome of one run of the hook. -/
structure HookOutcome where
  trace : List Event
  syncedCh : Chan
  hasSyncedCalls : Nat
  resolveCalls : Nat
  result : HookResult
  deriving DecidableEq, Repr

/-- The hook from "Getting kcp APIExport identities" (server.go, line 166) to its end:
identity resolution, second cache sync, closing `syncedCh`, root workspace phase 1.
`t` is the trace so far and `readyCalls` the number of readiness observations made. -/
def startInformersHookTail (s : Server) (env : HookEnv) (fuel : Nat) (t : List Event)
    (readyCalls : Nat) : HookOutcome :=
  let t := t ++ [.start .IdentityResolutionLoop]
  let ids := PollImmediateInfiniteWithContext env.identityCancelled
    (fun n => match env.resolveIdentities n with
      | some _ => (false, none)
      | none => (true, none)) fuel
  match ids.result with
  | .pending => ⟨t, s.syncedCh, readyCalls, ids.calls, .polling⟩
  | .err _ =>
    ⟨t ++ [.abort .IdentityResolutionLoop], s.syncedCh, readyCalls, ids.calls, .returned none⟩
  | .ok =>
  -- KcpSharedInformerFactory: Start, WaitForCacheSync
  let t := t ++ [.done .IdentityResolutionLoop, .start .SecondCacheSync]
  if env.stopAfterSecondSync then
    -- case <-ctx.StopCh: return nil
    ⟨t ++ [.abort .SecondCacheSync], s.syncedCh, readyCalls, ids.calls, .returned none⟩
  else
  -- go DynamicDiscoverySharedInformerFactory.StartWorker; close(s.syncedCh)
  let t := t ++ [.done .SecondCacheSync, .start .MarkReady]
  match s.syncedCh.close with
  | none => ⟨t ++ [.abort .MarkReady], s.syncedCh, readyCalls, ids.calls, .panicked⟩
  | some ch =>
  let t := t ++ [.done .MarkReady]
  if s.CompletedConfig.Options.Extra.ShardName == RootShard then
    let t := t ++ [.start .RootPhase1]
    match env.configrootBootstrap with
    | some _ => ⟨t ++ [.abort .RootPhase1], ch, readyCalls, ids.calls, .returned none⟩
    | none => ⟨t ++ [.done .RootPhase1], ch, readyCalls, ids.calls, .returned none⟩
  else
    ⟨t, ch, readyCalls, ids.calls, .returned none⟩

/-- The body of the function registered as `kcp-start-informers` (server.go, lines
103 to 231). -/
def startInformersHook (s : Server) (env : HookEnv) (fuel : Nat) : HookOutcome :=
  -- KubeSharedInformerFactory / ApiExtensionsSharedInformerFactory: Start, WaitForCacheSync
  let t := [Event.start .InfrastructureCacheSync]
  if env.stopAfterFirstSync then
    -- case <-ctx.StopCh: return nil
    ⟨t ++ [.abort .InfrastructureCacheSync], s.syncedCh, 0, 0, .returned none⟩
  else
  let t := t ++ [.done .InfrastructureCacheSync, .start .SystemSchemaBootstrap]
  match env.systemcrdsBootstrap with
  | some _ => ⟨t ++ [.abort .SystemSchemaBootstrap], s.syncedCh, 0, 0, .returned none⟩
  | none =>
  let t := t ++ [.done .SystemSchemaBootstrap, .start .ShardWorkspaceBootstrap]
  match env.configshardBootstrap with
  | some _ => ⟨t ++ [.abort .ShardWorkspaceBootstrap], s.syncedCh, 0, 0, .returned none⟩
  | none =>
  -- go APIExports().Informer().Run(ctx.StopCh); go APIBindings().Informer().Run(ctx.StopCh)
  let t := t ++ [.done .ShardWorkspaceBootstrap,
    .start .StartDependentWatchers, .done .StartDependentWatchers,
    .start .PollForMinimalReadiness]
  let ready := PollInfiniteWithContext env.readinessCancelled
    (fun n => ((env.hasSynced n).1 && (env.hasSynced n).2, none)) fuel
  match ready.result with
  | .pending => ⟨t, s.syncedCh, ready.calls, 0, .polling⟩
  | .err _ => ⟨t ++ [.abort .PollForMinimalReadiness], s.syncedCh, ready.calls, 0, .returned none⟩
  | .ok =>
  let t := t ++ [.done .PollForMinimalReadiness]
  if s.CompletedConfig.Options.Extra.ShardName == RootShard then
    let t := t ++ [.start .RootPhase0]
    match env.configrootphase0Bootstrap with
    | some _ => ⟨t ++ [.abort .RootPhase0], s.syncedCh, ready.calls, 0, .returned none⟩
    | none => startInformersHookTail s env fuel (t ++ [.done .RootPhase0]) ready.calls
  else
    startInformersHookTail s env fuel t ready.calls

/-! ## `Server.Run` -/

/-- What `Run` reads from outside the server value. -/
structure World where
  /-- Result of each call `Run` makes, should the call be made. -/
  outcome : Step → Option Err
  /-- The value of `kcpfeatures.DefaultFeatureGate.Enabled(kcpfeatures.LocationAPI)`. -/
  LocationAPI : Bool
  /-- What the collaborators of the bootstrap hook do once the server runs it. -/
  hookEnv : HookEnv
  /-- Number of poll rounds of the bootstrap hook that are followed. -/
  fuel : Nat

/-- State threaded through `Run`: the trace so far, the post-start hooks registered with
the generic API server, and the outcome of the bootstrap hook once it has been run. -/
structure RunState where
  trace : List Event
  postStartHooks : List Hook
  bootstrap : Option HookOutcome

/-- Computations of `Run`: an error ends the computation (`return err`), the state is
kept. -/
abbrev RunM := ExceptT Err (StateM RunState)

/-- A call of a fallible collaborator in the shape
`if err := f(...); err != nil { return err }`. -/
def call (w : World) (st : Step) : RunM Unit := do
  modify fun σ => { σ with trace := σ.trace ++ [.call st] }
  match w.outcome st with
  | some err => throw err
  | none => pure ()

/-- `s.AddPostStartHook(name, hook)` delegates to the generic API server, a library
outside the files at hand. In the spec this is "a post-start-hook registration interface
accepting (name, fn)": on success the hook is recorded for later, it is not run here. -/
def AddPostStartHook (w : World) (h : Hook) : RunM Unit := do
  call w (.AddPostStartHook h)
  modify fun σ => { σ with postStartHooks := σ.postStartHooks ++ [h] }

/-- Modelled from the spec: `delegationChainHead.PrepareRun().Run(ctx.Done())` is the
`Run` of the generic API server, a library outside the files at hand. In the spec the
bootstrap "runs inside a post-initialization hook fired once the listener is otherwise
ready": the server starts serving and fires the post-start hooks that were registered, so
the bootstrap hook, when registered, runs here. The value returned is that of the
server's `Run`. -/
def PrepareRunRun (s : Server) (w : World) : RunM Unit := do
  modify fun σ => { σ with trace := σ.trace ++ [.call .PrepareRun] }
  let σ ← get
  if Hook.kcpStartInformers ∈ σ.postStartHooks then
    let out := startInformersHook s w.hookEnv w.fuel
    set { σ with trace := σ.trace ++ out.trace, bootstrap := some out }
  match w.outcome .PrepareRun with
  | some err => throw err
  | none => pure ()

/-- The body of `Server.Run` (server.go, lines 96 to 357). -/
def runBody (s : Server) (w : World) : RunM Unit := do
  AddPostStartHook w .kcpBootstrapPolicy
  AddPostStartHook w .kcpStartInformers
  call w .installKubeNamespaceController
  call w .installClusterRoleAggregationController
  call w .installKubeServiceAccountController
  call w .installKubeServiceAccountTokenController
  call w .installRootCAConfigMapController
  -- enabled := sets.NewString(s.Options.Controllers.IndividuallyEnabled...)
  let enabled := s.CompletedConfig.Options.Controllers.IndividuallyEnabled
  if s.CompletedConfig.Options.Controllers.EnableAll || enabled.contains "cluster" then
    call w .installApiResourceController
    call w .installSyncTargetHeartbeatController
    call w .installVirtualWorkspaceURLsController
  if s.CompletedConfig.Options.Controllers.EnableAll
      || enabled.contains "workspace-scheduler" then
    call w .installWorkspaceScheduler
    call w .installWorkspaceDeletionController
  if s.CompletedConfig.Options.HomeWorkspaces.Enabled then
    call w .installHomeWorkspaces
  if s.CompletedConfig.Options.Controllers.EnableAll
      || enabled.contains "resource-scheduler" then
    call w .installWorkloadResourceScheduler
  if s.CompletedConfig.Options.Controllers.EnableAll || enabled.contains "apibinding" then
    call w .installAPIBindingController
  if s.CompletedConfig.Options.Controllers.EnableAll || enabled.contains "apiexport" then
    call w .installAPIExportController
  if w.LocationAPI then
    if s.CompletedConfig.Options.Controllers.EnableAll || enabled.contains "scheduling" then
      call w .installWorkloadNamespaceScheduler
      call w .installWorkloadPlacementScheduler
      call w .installSchedulingLocationStatusController
      call w .installSchedulingPlacementController
      call w .installWorkloadsAPIExportController
      call w .installWorkloadsAPIExportCreateController
      call w .installDefaultPlacementController
  if s.CompletedConfig.Options.Controllers.EnableAll || enabled.contains "quota" then
    call w .installKubeQuotaController
  if s.CompletedConfig.Options.Virtual.Enabled then
    call w .installVirtualWorkspaces
  else
    call w .installVirtualWorkspacesRedirect
  call w .WriteKubeConfig
  PrepareRunRun s w

/-- Observable outcome of `Run`: the trace, the outcome of the bootstrap hook if the
server ran it, and the error returned (`none` for `nil`). -/
structure RunOutcome where
  trace : List Event
  bootstrap : Option HookOutcome
  result : Option Err

/-- `Server.Run`, started with an empty trace and no hook registered. -/
def Server.Run (s : Server) (w : World) : RunOutcome :=
  match (runBody s w).run.run ⟨[], [], none⟩ with
  | (.error err, σ) => ⟨σ.trace, σ.bootstrap, some err⟩
  | (.ok _, σ) => ⟨σ.trace, σ.bootstrap, none⟩

/-! ## The steps `Run` takes, as data -/

/-- The calls `Run` makes before `PrepareRun`, in order, for the guards that hold: the
straight-line reading of `runBody`. -/
def plan (s : Server) (w : World) : List Step :=
  [.AddPostStartHook .kcpBootstrapPolicy, .AddPostStartHook .kcpStartInformers,
    .installKubeNamespaceController, .installClusterRoleAggregationController,
    .installKubeServiceAccountController, .installKubeServiceAccountTokenController,
    .installRootCAConfigMapController]
  ++ (if s.CompletedConfig.Options.Controllers.EnableAll
        || s.CompletedConfig.Options.Controllers.IndividuallyEnabled.contains "cluster" then
      [.installApiResourceController, .installSyncTargetHeartbeatController,
        .installVirtualWorkspaceURLsController] else [])
  ++ (if s.CompletedConfig.Options.Controllers.EnableAll
        || s.CompletedConfig.Options.Controllers.IndividuallyEnabled.contains
          "workspace-scheduler" then
      [.installWorkspaceScheduler, .installWorkspaceDeletionController] else [])
  ++ (if s.CompletedConfig.Options.HomeWorkspaces.Enabled then
      [.installHomeWorkspaces] else [])
  ++ (if s.CompletedConfig.Options.Controllers.EnableAll
        || s.CompletedConfig.Options.Controllers.IndividuallyEnabled.contains
          "resource-scheduler" then
      [.installWorkloadResourceScheduler] else [])
  ++ (if s.CompletedConfig.Options.Controllers.EnableAll
        || s.CompletedConfig.Options.Controllers.IndividuallyEnabled.contains "apibinding" then
      [.installAPIBindingController] else [])
  ++ (if s.CompletedConfig.Options.Controllers.EnableAll
        || s.CompletedConfig.Options.Controllers.IndividuallyEnabled.contains "apiexport" then
      [.installAPIExportController] else [])
  ++ (if w.LocationAPI then
      (if s.CompletedConfig.Options.Controllers.EnableAll
          || s.CompletedConfig.Options.Controllers.IndividuallyEnabled.contains "scheduling" then
        [.installWorkloadNamespaceScheduler, .installWorkloadPlacementScheduler,
          .installSchedulingLocationStatusController, .installSchedulingPlacementController,
          .installWorkloadsAPIExportController, .installWorkloadsAPIExportCreateController,
          .installDefaultPlacementController] else [])
      else [])
  ++ (if s.CompletedConfig.Options.Controllers.EnableAll
        || s.CompletedConfig.Options.Controllers.IndividuallyEnabled.contains "quota" then
      [.installKubeQuotaController] else [])
  ++ (if s.CompletedConfig.Options.Virtual.Enabled then
      [.installVirtualWorkspaces] else [.installVirtualWorkspacesRedirect])
  ++ [.WriteKubeConfig]

/-- One step of the plan as a computation: a registration or a plain call. -/
def stepM (w : World) : Step → RunM Unit
  | .AddPostStartHook h => AddPostStartHook w h
  | st => call w st

/-- A list of steps run in sequence. -/
def execSteps (w : World) : List Step → RunM Unit
  | [] => pure ()
  | st :: r => do stepM w st; execSteps w r

/-- The steps of a list that are invoked: all up to and including the first that fails. -/
def invoked (o : Step → Option Err) : List Step → List Step
  | [] => []
  | st :: r =>
    match o st with
    | some _ => [st]
    | none => st :: invoked o r

/-- The error of the first step of a list that fails, if any. -/
def firstError (o : Step → Option Err) : List Step → Option Err
  | [] => none
  | st :: r =>
    match o st with
    | some e => some e
    | none => firstError o r

/-- The hooks registered by the invoked steps of a list. -/
def registered (o : Step → Option Err) : List Step → List Hook
  | [] => []
  | st :: r =>
    match o st with
    | some _ => []
    | none =>
      match st with
      | .AddPostStartHook h => h :: registered o r
      | _ => registered o r

/-- What `Run` does, read off its plan: on the first failing step it returns that error
with the trace of the steps invoked so far; when no step of the plan fails it calls
`PrepareRun`, the server runs the bootstrap hook, and `Run` returns the server's result. -/
def runSpec (s : Server) (w : World) : RunOutcome :=
  match firstError w.outcome (plan s w) with
  | some e => ⟨(invoked w.outcome (plan s w)).map .call, none, some e⟩
  | none =>
    ⟨(plan s w).map .call ++ [.call .PrepareRun]
        ++ (startInformersHook s w.hookEnv w.fuel).trace,
      some (startInformersHook s w.hookEnv w.fuel), w.outcome .PrepareRun⟩

/-- Position of a step in the source text of `Run`. -/
def Step.sourceOrder : Step → Nat
  | .AddPostStartHook .kcpBootstrapPolicy => 0
  | .AddPostStartHook .kcpStartInformers => 1
  | .installKubeNamespaceController => 2
  | .installClusterRoleAggregationController => 3
  | .installKubeServiceAccountController => 4
  | .installKubeServiceAccountTokenController => 5
  | .installRootCAConfigMapController => 6
  | .installApiResourceController => 7
  | .installSyncTargetHeartbeatController => 8
  | .installVirtualWorkspaceURLsController => 9
  | .installWorkspaceScheduler => 10
  | .installWorkspaceDeletionController => 11
  | .installHomeWorkspaces => 12
  | .installWorkloadResourceScheduler => 13
  | .installAPIBindingController => 14
  | .installAPIExportController => 15
  | .installWorkloadNamespaceScheduler => 16
  | .installWorkloadPlacementScheduler => 17
  | .installSchedulingLocationStatusController => 18
  | .installSchedulingPlacementController => 19
  | .installWorkloadsAPIExportController => 20
  | .installWorkloadsAPIExportCreateController => 21
  | .installDefaultPlacementController => 22
  | .installKubeQuotaController => 23
  | .installVirtualWorkspaces => 24
  | .installVirtualWorkspacesRedirect => 25
  | .WriteKubeConfig => 26
  | .PrepareRun => 27

/-- Every call of `Run` before `PrepareRun`, in source order. -/
def allSteps : List Step :=
  [.AddPostStartHook .kcpBootstrapPolicy, .AddPostStartHook .kcpStartInformers,
    .installKubeNamespaceController, .installClusterRoleAggregationController,
    .installKubeServiceAccountController, .installKubeServiceAccountTokenController,
    .installRootCAConfigMapController]
  ++ [.installApiResourceController, .installSyncTargetHeartbeatController,
        .installVirtualWorkspaceURLsController]
  ++ [.installWorkspaceScheduler, .installWorkspaceDeletionController]
  ++ [.installHomeWorkspaces]
  ++ [.installWorkloadResourceScheduler]
  ++ [.installAPIBindingController]
  ++ [.installAPIExportController]
  ++ [.installWorkloadNamespaceScheduler, .installWorkloadPlacementScheduler,
          .installSchedulingLocationStatusController, .installSchedulingPlacementController,
          .installWorkloadsAPIExportController, .installWorkloadsAPIExportCreateController,
          .installDefaultPlacementController]
  ++ [.installKubeQuotaController]
  ++ [.installVirtualWorkspaces, .installVirtualWorkspacesRedirect]
  ++ [.WriteKubeConfig]

/-- The install functions among the steps. -/
def Step.isInstall : Step → Bool
  | .AddPostStartHook _ => false
  | .WriteKubeConfig => false
  | .PrepareRun => false
  | _ => true

/-- The named controller groups that `Run` enables through
`Options.Controllers`. -/
inductive Group
  | cluster
  | workspaceScheduler
  | resourceScheduler
  | apibinding
  | apiexport
  | scheduling
  | quota
  deriving DecidableEq, Repr

/-- The name under which a group is looked up in `IndividuallyEnabled`. -/
def Group.name : Group → String
  | .cluster => "cluster"
  | .workspaceScheduler => "workspace-scheduler"
  | .resourceScheduler => "resource-scheduler"
  | .apibinding => "apibinding"
  | .apiexport => "apiexport"
  | .scheduling => "scheduling"
  | .quota => "quota"

/-- The install functions `Run` calls for a group. -/
def Group.installs : Group → List Step
  | .cluster => [.installApiResourceController, .installSyncTargetHeartbeatController,
      .installVirtualWorkspaceURLsController]
  | .workspaceScheduler => [.installWorkspaceScheduler, .installWorkspaceDeletionController]
  | .resourceScheduler => [.installWorkloadResourceScheduler]
  | .apibinding => [.installAPIBindingController]
  | .apiexport => [.installAPIExportController]
  | .scheduling => [.installWorkloadNamespaceScheduler, .installWorkloadPlacementScheduler,
      .installSchedulingLocationStatusController, .installSchedulingPlacementController,
      .installWorkloadsAPIExportController, .installWorkloadsAPIExportCreateController,
      .installDefaultPlacementController]
  | .quota => [.installKubeQuotaController]

/-- The feature gate of a group: `LocationAPI` for scheduling, none for the others. -/
def Group.featureGate (w : World) : Group → Bool
  | .scheduling => w.LocationAPI
  | _ => true

/-! ## Concrete inputs -/

/-- A hook environment in which every collaborator succeeds at once and no stop signal is
seen. -/
def quietHookEnv : HookEnv where
  stopAfterFirstSync := false
  systemcrdsBootstrap := none
  configshardBootstrap := none
  hasSynced := fun _ => (true, true)
  readinessCancelled := fun _ => false
  configrootphase0Bootstrap := none
  resolveIdentities := fun _ => none
  identityCancelled := fun _ => false
  stopAfterSecondSync := false
  configrootBootstrap := none

/-- A world in which every call succeeds, with the `LocationAPI` gate as given. -/
def quietWorld (locationAPI : Bool) : World where
  outcome := fun _ => none
  LocationAPI := locationAPI
  hookEnv := quietHookEnv
  fuel := 2

/-- A world in which exactly the call `bad` fails, with error `boom`. -/
def failingWorld (bad : Step) : World where
  outcome := fun st => if st = bad then some "boom" else none
  LocationAPI := true
  hookEnv := quietHookEnv
  fuel := 2

/-- A configuration with the given controller selection and shard name; home workspaces
and virtual workspaces are disabled. -/
def configWith (enableAll : Bool) (names : List String) (shard : String) : CompletedConfig :=
  { Options :=
    { Controllers := { EnableAll := enableAll, IndividuallyEnabled := names }
      HomeWorkspaces := { Enabled := false }
      Virtual := { Enabled := false }
      Extra := { ShardName := shard } } }

/-- A freshly built server (as `NewServer` returns it) for `configWith`. -/
def serverWith (enableAll : Bool) (names : List String) (shard : String) : Server :=
  { CompletedConfig := configWith enableAll names shard, syncedCh := .isOpen }

/-! ## Reading traces -/

/-- The server is on the root shard (`s.Options.Extra.ShardName == tenancyv1alpha1.RootShard`). -/
def Server.isRoot (s : Server) : Bool :=
  s.CompletedConfig.Options.Extra.ShardName == RootShard

/-- The fixed order of the phases of the bootstrap hook; the two root phases are part of
it on the root shard only. -/
def phaseOrder (root : Bool) : List Phase :=
  [.InfrastructureCacheSync, .SystemSchemaBootstrap, .ShardWorkspaceBootstrap,
    .StartDependentWatchers, .PollForMinimalReadiness]
  ++ (if root then [.RootPhase0] else [])
  ++ [.IdentityResolutionLoop, .SecondCacheSync, .MarkReady]
  ++ (if root then [.RootPhase1] else [])

/-- The phase an event starts, if it is a start event. -/
def Event.startOf : Event → Option Phase
  | .start p => some p
  | _ => none

/-- The phases started in a trace, in the order in which they start. -/
def started (tr : List Event) : List Phase := tr.filterMap Event.startOf

/-- Event `a` occurs in the trace strictly before an occurrence of event `b`. -/
def Precedes (a b : Event) (tr : List Event) : Prop :=
  ∃ i, i < tr.length ∧ tr.get? i = some b ∧ a ∈ tr.take i

instance (a b : Event) (tr : List Event) : Decidable (Precedes a b tr) := by
  unfold Precedes
  infer_instance

/-- The same server value after a run of the hook: the gate keeps the state the run left
it in. -/
def Server.afterHook (s : Server) (out : HookOutcome) : Server :=
  { s with syncedCh := out.syncedCh }

/-- The quiet hook environment, except that `configroot.Bootstrap` (root workspace
phase 1) fails. -/
def phase1FailsEnv : HookEnv := { quietHookEnv with configrootBootstrap := some "boom" }

/-- The quiet hook environment, except that `configrootphase0.Bootstrap` fails. -/
def phase0FailsEnv : HookEnv := { quietHookEnv with configrootphase0Bootstrap := some "boom" }

/-- The condition the hook passes to the identity poll (server.go, lines 168 to 174): a
failure of `s.resolveIdentities` is logged and reported as "not done yet, no error". -/
def identityCondition (env : HookEnv) (n : Nat) : Bool × Option Err :=
  match env.resolveIdentities n with
  | some _ => (false, none)
  | none => (true, none)

/-- The identity poll of the hook, as a function of the number of rounds followed. -/
def identityPoll (env : HookEnv) (fuel : Nat) : PollOutcome :=
  PollImmediateInfiniteWithContext env.identityCancelled (identityCondition env) fuel

/-- A hook environment in which `resolveIdentities` fails twice and then succeeds, with
no cancellation. -/
def thirdAttemptEnv : HookEnv :=
  { quietHookEnv with resolveIdentities := fun n => if n < 2 then some "not yet" else none }

/-! ## The composed request handler -/

/-- A resource group and version: the key by which a request is routed. -/
structure GroupVersion where
  group : String
  version : String
  deriving DecidableEq, Repr

/-- An inbound request, reduced to what routing reads (its resource group and version)
and the rest of it, which routing passes on untouched. -/
structure Request where
  groupVersion : GroupVersion
  body : String
  deriving DecidableEq, Repr

/-- The two delegates handed to `mergeCRDsIntoCoreGroup` in `NewServer`: the CRD handler
(`CustomResourceDefinitions...NonGoRestfulMux.ServeHTTP`, primary, extension schemas) and
the core handler (`GenericControlPlane...GoRestfulContainer.ServeHTTP`, secondary,
built-in types). -/
inductive Delegate
  | primary
  | secondary
  deriving DecidableEq, Repr

/-- What the cluster-aware CRD lister answers at a given moment: the group/versions the
extension-schema delegate currently owns. -/
abbrev ClusterAwareCRDLister := List GroupVersion

/-- Modelled from the spec: `mergeCRDsIntoCoreGroup` is defined outside the files at hand
(only its call in `NewServer` is there). The spec's dispatch rule: "for each inbound
request, determine the owning ResourceGroup/version; if the primary (extension-schema)
delegate claims ownership of that group, route there; otherwise fall through to the
secondary (built-in) delegate", "evaluated per request", and "no request body is copied or
transformed; this layer only selects a destination handler". The lister is consulted with
its content at the time of the request; the result lists the delegate calls made. -/
def mergeCRDsIntoCoreGroup (crdLister : ClusterAwareCRDLister) (req : Request) :
    List (Delegate × Request) :=
  if req.groupVersion ∈ crdLister then [(.primary, req)] else [(.secondary, req)]

/-- What happens to a running server, as far as routing goes: an extension schema is
registered for a group/version, or a request arrives. -/
inductive ServerOp
  | register (gv : GroupVersion)
  | request (req : Request)
  deriving DecidableEq, Repr

/-- The content of the lister after a sequence of operations. -/
def listerAfter : ClusterAwareCRDLister → List ServerOp → ClusterAwareCRDLister
  | l, [] => l
  | l, .register gv :: ops => listerAfter (gv :: l) ops
  | l, .request _ :: ops => listerAfter l ops

/-- The delegate calls made while the composed handler, built once, serves a sequence of
operations: every request goes through the handler with the lister as it is then. -/
def serve : ClusterAwareCRDLister → List ServerOp → List (Delegate × Request)
  | _, [] => []
  | l, .register gv :: ops => serve (gv :: l) ops
  | l, .request req :: ops => mergeCRDsIntoCoreGroup l req ++ serve l ops

/-! ## Quota accounting per logical cluster -/

/-- A logical cluster (workspace): an opaque tenant identifier. -/
abbrev LogicalCluster := String

/-- A resource counted by quota, such as `count/configmaps` (a built-in core type) or
`count/sheriffs.<group>` (a CRD-defined type). -/
structure CountedResource where
  name : String
  definedByCRD : Bool
  deriving DecidableEq, Repr

/-- An object of the API surface, scoped to exactly one logical cluster. -/
structure ApiObject where
  cluster : LogicalCluster
  resource : CountedResource
  name : String
  deriving DecidableEq, Repr

/-- A `ResourceQuota` of a logical cluster: a hard limit on the count of one resource. -/
structure ResourceQuota where
  cluster : LogicalCluster
  resource : CountedResource
  hard : Nat
  deriving DecidableEq, Repr

/-- The objects and quotas held by the server, over all logical clusters. -/
structure QuotaStore where
  objects : List ApiObject
  quotas : List ResourceQuota
  deriving DecidableEq, Repr

/-- The objects of a store that are scoped to a logical cluster. -/
def QuotaStore.scopedTo (st : QuotaStore) (c : LogicalCluster) : List ApiObject :=
  st.objects.filter (fun o => o.cluster = c)

/-- Modelled from the spec: the quota controller installed by `installKubeQuotaController`
is outside the files at hand (its end-to-end tests and its install call are there). The
spec: "all cache lookups, identity resolution, and quota/usage accounting are scoped by
this key" and "usage(A) = f(objects scoped to A)". The used count of a resource in a
logical cluster is the number of objects of that resource scoped to that cluster. -/
def used (st : QuotaStore) (c : LogicalCluster) (r : CountedResource) : Nat :=
  ((st.scopedTo c).filter (fun o => o.resource = r)).length

/-- The result of a create request. -/
inductive CreateResult
  | created
  | forbidden
  deriving DecidableEq, Repr

/-- Modelled from the spec: quota enforcement, outside the files at hand, as the tests
`TestKubeQuotaBuiltInCoreV1Types` and `TestKubeQuotaNormalCRDs` observe it: creating an
object in a logical cluster is rejected as Forbidden when a quota of that cluster for the
object's resource has a hard limit that the cluster's used count has reached; otherwise
the object is stored. -/
def createObject (st : QuotaStore) (o : ApiObject) : CreateResult × QuotaStore :=
  if st.quotas.any (fun q => q.cluster = o.cluster ∧ q.resource = o.resource
      ∧ q.hard ≤ used st o.cluster o.resource) then
    (.forbidden, st)
  else
    (.created, { st with objects := o :: st.objects })

/-- Creating a `ResourceQuota` in a logical cluster. -/
def createQuota (st : QuotaStore) (q : ResourceQuota) : QuotaStore :=
  { st with quotas := q :: st.quotas }

/-- A request against the store. -/
inductive QuotaOp
  | createObject (o : ApiObject)
  | createQuota (q : ResourceQuota)
  deriving DecidableEq, Repr

/-- The logical cluster a request is scoped to. -/
def QuotaOp.cluster : QuotaOp → LogicalCluster
  | .createObject o => o.cluster
  | .createQuota q => q.cluster

/-- The store after a sequence of requests. -/
def applyOps : QuotaStore → List QuotaOp → QuotaStore
  | st, [] => st
  | st, .createObject o :: ops => applyOps (createObject st o).2 ops
  | st, .createQuota q :: ops => applyOps (createQuota st q) ops

/-- The quota of the tests: at most two objects of the resource in the cluster. -/
def quotaOfTwo (c : LogicalCluster) (r : CountedResource) : ResourceQuota :=
  { cluster := c, resource := r, hard := 2 }

/-- Requests that create the quota in a cluster and then try three objects. -/
def fillCluster (c : LogicalCluster) (r : CountedResource) : List QuotaOp :=
  [.createQuota (quotaOfTwo c r), .createObject ⟨c, r, "one"⟩, .createObject ⟨c, r, "two"⟩,
    .createObject ⟨c, r, "three"⟩]


/-! ## What a run of the hook is expected to record -/

/-- How a phase ends: it completes, it fails (an error, an observed stop signal, a panic),
or it is still polling after the rounds considered. -/
inductive PhaseOutcome
  | succeeded
  | failed
  | pending
  deriving DecidableEq, Repr

/-- How a poll ends, as the outcome of the phase that runs it. -/
def PollResult.toPhaseOutcome : PollResult → PhaseOutcome
  | .ok => .succeeded
  | .err _ => .failed
  | .pending => .pending

/-- The readiness poll of the hook (server.go, lines 140 to 144), as a function of the
number of rounds followed. -/
def readinessPoll (env : HookEnv) (fuel : Nat) : PollOutcome :=
  PollInfiniteWithContext env.readinessCancelled
    (fun n => ((env.hasSynced n).1 && (env.hasSynced n).2, none)) fuel

/-- What the collaborators of a run make of each phase, were the phase to run: read off
the environment (the stop channel at the two cache-sync waits, the results of the
bootstrap calls, the two polls) and, for `MarkReady`, off the state of the gate. It does
not depend on what the hook does with these outcomes. -/
def phaseOutcome (s : Server) (env : HookEnv) (fuel : Nat) : Phase → PhaseOutcome
  | .InfrastructureCacheSync => if env.stopAfterFirstSync then .failed else .succeeded
  | .SystemSchemaBootstrap =>
    match env.systemcrdsBootstrap with
    | some _ => .failed
    | none => .succeeded
  | .ShardWorkspaceBootstrap =>
    match env.configshardBootstrap with
    | some _ => .failed
    | none => .succeeded
  | .StartDependentWatchers => .succeeded
  | .PollForMinimalReadiness => (readinessPoll env fuel).result.toPhaseOutcome
  | .RootPhase0 =>
    match env.configrootphase0Bootstrap with
    | some _ => .failed
    | none => .succeeded
  | .IdentityResolutionLoop => (identityPoll env fuel).result.toPhaseOutcome
  | .SecondCacheSync => if env.stopAfterSecondSync then .failed else .succeeded
  | .MarkReady =>
    match s.syncedCh.close with
    | none => .failed
    | some _ => .succeeded
  | .RootPhase1 =>
    match env.configrootBootstrap with
    | some _ => .failed
    | none => .succeeded

/-- The phases that run when a list of phases is gone through in order and the run ends
at the first phase that does not succeed: that phase and all before it. -/
def ranPhases (out : Phase → PhaseOutcome) : List Phase → List Phase
  | [] => []
  | p :: rest =>
    match out p with
    | .succeeded => p :: ranPhases out rest
    | _ => [p]

/-- The trace of a run that goes through a list of phases in order, records the start
and the end of each, and ends at the first phase that does not succeed. -/
def expectedTrace (out : Phase → PhaseOutcome) : List Phase → List Event
  | [] => []
  | p :: rest =>
    match out p with
    | .succeeded => .start p :: .done p :: expectedTrace out rest
    | .failed => [.start p, .abort p]
    | .pending => [.start p]

/-- The quiet hook environment, except that `systemcrds.Bootstrap` fails. -/
def systemcrdsFailsEnv : HookEnv := { quietHookEnv with systemcrdsBootstrap := some "boom" }

/-! ## `Run` follows its plan -/

theorem execSteps_nil_bind (w : World) (k : Unit → RunM Unit) :
    (execSteps w [] >>= k) = k () := by
  simp [execSteps]

theorem execSteps_cons_bind (w : World) (st : Step) (r : List Step) (k : Unit → RunM Unit) :
    (execSteps w (st :: r) >>= k) = (stepM w st >>= fun _ => execSteps w r >>= k) := by
  simp [execSteps]

theorem execSteps_append_bind (w : World) (a b : List Step) (k : Unit → RunM Unit) :
    (execSteps w (a ++ b) >>= k) = (execSteps w a >>= fun _ => execSteps w b >>= k) := by
  induction a with
  | nil => simp [execSteps]
  | cons st r ih => simp only [List.cons_append, execSteps_cons_bind, ih]

theorem execSteps_ite_bind (w : World) (c : Bool) (a b : List Step) (k : Unit → RunM Unit) :
    (execSteps w (if c then a else b) >>= k)
      = if c then execSteps w a >>= k else execSteps w b >>= k := by
  cases c <;> simp

theorem runBody_eq (s : Server) (w : World) :
    runBody s w = (execSteps w (plan s w) >>= fun _ => PrepareRunRun s w) := by
  simp only [runBody, plan, execSteps_append_bind, execSteps_ite_bind, execSteps_cons_bind,
    execSteps_nil_bind, stepM, pure_bind, bind_assoc]

theorem call_bind_run (w : World) (st : Step) (k : Unit → RunM Unit) (σ : RunState) :
    (call w st >>= k).run.run σ =
      match w.outcome st with
      | some e => (.error e, { σ with trace := σ.trace ++ [.call st] })
      | none => (k ()).run.run { σ with trace := σ.trace ++ [.call st] } := by
  cases h : w.outcome st <;>
    simp [call, h, ExceptT.run, bind, ExceptT.bind, ExceptT.mk, ExceptT.bindCont, StateT.bind,
      StateT.run, modify, modifyGet, MonadStateOf.modifyGet, StateT.modifyGet, liftM, monadLift,
      MonadLift.monadLift, ExceptT.lift, StateT.map, Functor.map, throw, throwThe,
      MonadExceptOf.throw, pure, ExceptT.pure, StateT.pure]

theorem modify_bind_run (f : RunState → RunState) (k : Unit → RunM Unit) (σ : RunState) :
    ((modify f : RunM Unit) >>= k).run.run σ = (k ()).run.run (f σ) := by
  simp [ExceptT.run, bind, ExceptT.bind, ExceptT.mk, ExceptT.bindCont, StateT.bind,
    StateT.run, modify, modifyGet, MonadStateOf.modifyGet, StateT.modifyGet, liftM, monadLift,
    MonadLift.monadLift, ExceptT.lift, StateT.map, Functor.map, pure, StateT.pure]

theorem pure_run (σ : RunState) : (pure () : RunM Unit).run.run σ = (.ok (), σ) := by
  simp [ExceptT.run, StateT.run, pure, ExceptT.pure, ExceptT.mk, StateT.pure]

/-- Running a list of steps: the result is the first error, the trace grows by the
invoked steps, the registered hooks by those whose registration succeeded. -/
theorem execSteps_bind_run (w : World) (l : List Step) (k : Unit → RunM Unit) (σ : RunState) :
    (execSteps w l >>= k).run.run σ =
      match firstError w.outcome l with
      | some e =>
        (.error e, { σ with trace := σ.trace ++ (invoked w.outcome l).map .call
                            postStartHooks := σ.postStartHooks ++ registered w.outcome l })
      | none =>
        (k ()).run.run { σ with trace := σ.trace ++ (invoked w.outcome l).map .call
                                postStartHooks := σ.postStartHooks ++ registered w.outcome l } := by
  induction l generalizing σ with
  | nil => simp [execSteps, firstError, invoked, registered]
  | cons st r ih =>
    rw [execSteps_cons_bind]
    cases st <;>
      simp only [stepM, AddPostStartHook, bind_assoc, call_bind_run, modify_bind_run, firstError,
        invoked, registered] <;>
      cases h : w.outcome _ <;>
      simp only [] <;>
      first
        | (rw [ih]; cases firstError w.outcome r <;> simp)
        | simp

theorem PrepareRunRun_run (s : Server) (w : World) (σ : RunState) :
    (PrepareRunRun s w).run.run σ =
      ((match w.outcome .PrepareRun with
        | some e => Except.error e
        | none => Except.ok ()),
       (if Hook.kcpStartInformers ∈ σ.postStartHooks then
          { σ with trace := σ.trace ++ [.call .PrepareRun]
                      ++ (startInformersHook s w.hookEnv w.fuel).trace
                   bootstrap := some (startInformersHook s w.hookEnv w.fuel) }
        else { σ with trace := σ.trace ++ [.call .PrepareRun] })) := by
  by_cases hm : Hook.kcpStartInformers ∈ σ.postStartHooks <;>
  cases h : w.outcome .PrepareRun <;>
    simp [PrepareRunRun, h, hm, ExceptT.run, bind, ExceptT.bind, ExceptT.mk, ExceptT.bindCont,
      StateT.bind, StateT.run, modify, modifyGet, MonadStateOf.modifyGet, StateT.modifyGet,
      liftM, monadLift, MonadLift.monadLift, ExceptT.lift, StateT.map, Functor.map, throw,
      throwThe, MonadExceptOf.throw, pure, ExceptT.pure, StateT.pure, get, getThe,
      MonadStateOf.get, StateT.get, set, MonadStateOf.set, StateT.set]

theorem invoked_of_firstError_none (o : Step → Option Err) (l : List Step)
    (h : firstError o l = none) : invoked o l = l := by
  induction l with
  | nil => rfl
  | cons st r ih =>
    cases hs : o st with
    | some e => simp [firstError, hs] at h
    | none =>
      simp only [firstError, hs] at h
      simp [invoked, hs, ih h]

theorem plan_registers (s : Server) (w : World) (h : firstError w.outcome (plan s w) = none) :
    Hook.kcpStartInformers ∈ registered w.outcome (plan s w) := by
  simp only [plan, List.cons_append, firstError, registered] at h ⊢
  cases h1 : w.outcome (.AddPostStartHook .kcpBootstrapPolicy) with
  | some e => simp [h1] at h
  | none =>
    cases h2 : w.outcome (.AddPostStartHook .kcpStartInformers) with
    | some e => simp [h1, h2] at h
    | none => simp

theorem Run_eq (s : Server) (w : World) : s.Run w = runSpec s w := by
  unfold Server.Run runSpec
  rw [runBody_eq, execSteps_bind_run]
  cases h : firstError w.outcome (plan s w) with
  | some e => simp
  | none =>
    simp only [PrepareRunRun_run, List.nil_append, plan_registers s w h, if_true,
      invoked_of_firstError_none _ _ h]
    cases w.outcome .PrepareRun <;> simp

/-! ## Facts about plans -/

theorem plan_sublist (s : Server) (w : World) : (plan s w).Sublist allSteps := by
  unfold plan allSteps
  repeat' first
    | apply List.Sublist.append
    | (split <;> simp)
    | exact List.Sublist.refl _

theorem allSteps_sorted : allSteps.Pairwise (fun a b => a.sourceOrder < b.sourceOrder) := by
  decide

theorem plan_sorted (s : Server) (w : World) :
    (plan s w).Pairwise (fun a b => a.sourceOrder < b.sourceOrder) :=
  List.Pairwise.sublist (plan_sublist s w) allSteps_sorted

/-! ## Facts about the hook -/

theorem hookTail_trace_no_call (s : Server) (env : HookEnv) (fuel : Nat) (t : List Event)
    (n : Nat) (st : Step) (ht : Event.call st ∉ t) :
    Event.call st ∉ (startInformersHookTail s env fuel t n).trace := by
  unfold startInformersHookTail
  simp only []
  repeat' split
  all_goals simp [ht]

theorem hook_trace_no_call (s : Server) (env : HookEnv) (fuel : Nat) (st : Step) :
    Event.call st ∉ (startInformersHook s env fuel).trace := by
  unfold startInformersHook
  simp only []
  repeat' split
  all_goals first
    | (apply hookTail_trace_no_call; simp)
    | simp

/-! ## Facts about invoked steps -/

theorem invoked_subset (o : Step → Option Err) (l : List Step) (st : Step)
    (h : st ∈ invoked o l) : st ∈ l := by
  induction l with
  | nil => simp [invoked] at h
  | cons x r ih =>
    cases hx : o x with
    | some e =>
      simp only [invoked, hx, List.mem_singleton] at h
      simp [h]
    | none =>
      simp only [invoked, hx, List.mem_cons] at h
      rcases h with h | h
      · simp [h]
      · simp [ih h]

theorem firstError_none_iff (o : Step → Option Err) (l : List Step) :
    firstError o l = none ↔ ∀ t ∈ l, o t = none := by
  induction l with
  | nil => simp [firstError]
  | cons x r ih =>
    cases hx : o x with
    | some e => simp [firstError, hx]
    | none => simp [firstError, hx, ih]

/-- A step that is invoked and fails is the last one invoked, every step invoked before
it succeeded, and its error is the first error. -/
theorem invoked_failing (o : Step → Option Err) (l : List Step) (st : Step) (e : Err)
    (hin : st ∈ invoked o l) (herr : o st = some e) :
    firstError o l = some e ∧
      ∃ pre, invoked o l = pre ++ [st] ∧ ∀ t ∈ pre, o t = none := by
  induction l with
  | nil => simp [invoked] at hin
  | cons x r ih =>
    cases hx : o x with
    | some e2 =>
      simp only [invoked, hx, List.mem_singleton] at hin
      subst hin
      rw [hx] at herr
      cases herr
      exact ⟨by simp [firstError, hx], [], by simp [invoked, hx], by simp⟩
    | none =>
      simp only [invoked, hx, List.mem_cons] at hin
      rcases hin with hin | hin
      · subst hin
        rw [hx] at herr
        cases herr
      · obtain ⟨h1, pre, h2, h3⟩ := ih hin
        refine ⟨by simp [firstError, hx, h1], x :: pre, by simp [invoked, hx, h2], ?_⟩
        intro t ht
        rcases List.mem_cons.mp ht with ht | ht
        · simp [ht, hx]
        · exact h3 t ht

/-- In a list in source order, a step of the list is invoked as soon as every step
invoked ahead of it succeeds. -/
theorem mem_invoked_of_earlier_ok (o : Step → Option Err) (l : List Step) (st : Step)
    (hs : l.Pairwise (fun a b => a.sourceOrder < b.sourceOrder)) (hin : st ∈ l)
    (hok : ∀ t ∈ invoked o l, t.sourceOrder < st.sourceOrder → o t = none) :
    st ∈ invoked o l := by
  induction l with
  | nil => simp at hin
  | cons x r ih =>
    rcases List.mem_cons.mp hin with hx | hr
    · subst hx
      cases h : o st <;> simp [invoked, h]
    · have hlt : x.sourceOrder < st.sourceOrder := (List.pairwise_cons.mp hs).1 st hr
      have hxo : o x = none := by
        apply hok x _ hlt
        cases h : o x <;> simp [invoked, h]
      have hsub : ∀ t ∈ invoked o r, t.sourceOrder < st.sourceOrder → o t = none := by
        intro t ht hl
        apply hok t _ hl
        simp [invoked, hxo, ht]
      simp [invoked, hxo, ih (List.pairwise_cons.mp hs).2 hr hsub]

theorem PrepareRun_not_mem_plan (s : Server) (w : World) : Step.PrepareRun ∉ plan s w := by
  intro h
  have := (plan_sublist s w).subset h
  revert this
  decide

/-- The calls in the trace of `Run`: the invoked steps of the plan, and `PrepareRun` when
no step of the plan fails. -/
theorem call_mem_Run_trace (s : Server) (w : World) (st : Step) :
    Event.call st ∈ (s.Run w).trace ↔
      st ∈ invoked w.outcome (plan s w)
        ∨ (st = .PrepareRun ∧ firstError w.outcome (plan s w) = none) := by
  rw [Run_eq]
  unfold runSpec
  cases h : firstError w.outcome (plan s w) with
  | some e => simp
  | none =>
    simp [invoked_of_firstError_none _ _ h, hook_trace_no_call, eq_comm]

/-! ## Controller activation and error propagation in `Run` -/

theorem mem_plan_group_iff (s : Server) (w : World) (g : Group) (st : Step)
    (hst : st ∈ g.installs) :
    st ∈ plan s w ↔
      (s.CompletedConfig.Options.Controllers.EnableAll = true
        ∨ g.name ∈ s.CompletedConfig.Options.Controllers.IndividuallyEnabled)
      ∧ g.featureGate w = true := by
  cases g <;> simp only [Group.installs, List.mem_cons, List.mem_singleton, List.not_mem_nil,
    or_false] at hst <;> (try casesm* _ ∨ _) <;> subst_vars <;>
    simp [plan, Group.name, Group.featureGate] <;>
    (try split) <;> (try simp) <;> tauto

/-- C1: provided every step invoked ahead of it in `Run` returned no error, an install
function of a named controller group is invoked if and only if the group is enabled
(`EnableAll`, or its name in `IndividuallyEnabled`) and its feature gate holds
(`LocationAPI` for scheduling, none for the other six). -/
theorem group_install_invoked_iff (s : Server) (w : World) (g : Group) (st : Step)
    (hst : st ∈ g.installs)
    (hearlier : ∀ t, Event.call t ∈ (s.Run w).trace →
      t.sourceOrder < st.sourceOrder → w.outcome t = none) :
    Event.call st ∈ (s.Run w).trace ↔
      (s.CompletedConfig.Options.Controllers.EnableAll = true
        ∨ g.name ∈ s.CompletedConfig.Options.Controllers.IndividuallyEnabled)
      ∧ g.featureGate w = true := by
  have hne : st ≠ .PrepareRun := by
    rintro rfl
    revert hst
    cases g <;> decide
  rw [← mem_plan_group_iff s w g st hst, call_mem_Run_trace]
  constructor
  · rintro (h | ⟨h, -⟩)
    · exact invoked_subset _ _ _ h
    · exact absurd h hne
  · intro h
    left
    apply mem_invoked_of_earlier_ok _ _ _ (plan_sorted s w) h
    intro t ht hlt
    exact hearlier t ((call_mem_Run_trace s w t).mpr (Or.inl ht)) hlt

/-- Witness for C1: the quota group on a server started with `IndividuallyEnabled =
["quota"]` in a world where every call succeeds. -/
theorem group_install_invoked_iff_witness :
    Step.installKubeQuotaController ∈ Group.quota.installs
    ∧ (∀ t, Event.call t ∈ ((serverWith false ["quota"] "root").Run (quietWorld true)).trace →
        t.sourceOrder < Step.installKubeQuotaController.sourceOrder →
        (quietWorld true).outcome t = none)
    ∧ (Event.call .installKubeQuotaController
          ∈ ((serverWith false ["quota"] "root").Run (quietWorld true)).trace ↔
        ((serverWith false ["quota"] "root").CompletedConfig.Options.Controllers.EnableAll = true
          ∨ Group.quota.name
              ∈ (serverWith false ["quota"]
                  "root").CompletedConfig.Options.Controllers.IndividuallyEnabled)
        ∧ Group.quota.featureGate (quietWorld true) = true) :=
  ⟨by decide, fun _ _ _ => rfl,
    group_install_invoked_iff (serverWith false ["quota"] "root") (quietWorld true) .quota
      .installKubeQuotaController (by decide) (fun _ _ _ => rfl)⟩

/-- C2: whenever a step of `Run` other than the final `PrepareRun().Run` (a hook
registration, an install function, `WriteKubeConfig`) is invoked and returns an error,
`Run` returns exactly that error; the failing call is the last event of the trace, every
event before it is a call that returned no error (so it is the first failing step and no
step after it is invoked), `PrepareRun().Run` is not reached and the bootstrap hook is
not run. -/
theorem Run_returns_first_error (s : Server) (w : World) (st : Step) (e : Err)
    (hinv : Event.call st ∈ (s.Run w).trace) (hne : st ≠ .PrepareRun)
    (herr : w.outcome st = some e) :
    (s.Run w).result = some e
    ∧ (∃ pre : List Step, (s.Run w).trace = pre.map Event.call ++ [Event.call st]
        ∧ ∀ t ∈ pre, w.outcome t = none)
    ∧ Event.call .PrepareRun ∉ (s.Run w).trace
    ∧ (s.Run w).bootstrap = none := by
  have hin : st ∈ invoked w.outcome (plan s w) := by
    rcases (call_mem_Run_trace s w st).mp hinv with h | ⟨h, -⟩
    · exact h
    · exact absurd h hne
  obtain ⟨hfe, pre, hpre, hok⟩ := invoked_failing _ _ _ _ hin herr
  have hP : Event.call .PrepareRun ∉ (s.Run w).trace := by
    rw [call_mem_Run_trace]
    rintro (h | ⟨-, h⟩)
    · exact PrepareRun_not_mem_plan s w (invoked_subset _ _ _ h)
    · rw [hfe] at h
      cases h
  refine ⟨?_, ⟨pre, ?_, hok⟩, hP, ?_⟩
  · rw [Run_eq]
    simp [runSpec, hfe]
  · rw [Run_eq]
    simp [runSpec, hfe, hpre]
  · rw [Run_eq]
    simp [runSpec, hfe]

/-- Witness for C2: `installKubeServiceAccountController` is the only failing call. -/
theorem Run_returns_first_error_witness :
    Event.call .installKubeServiceAccountController
        ∈ ((serverWith true [] "root").Run
            (failingWorld .installKubeServiceAccountController)).trace
    ∧ Step.installKubeServiceAccountController ≠ .PrepareRun
    ∧ (failingWorld .installKubeServiceAccountController).outcome
        .installKubeServiceAccountController = some "boom"
    ∧ ((serverWith true [] "root").Run
        (failingWorld .installKubeServiceAccountController)).result = some "boom"
    ∧ (∃ pre : List Step,
        ((serverWith true [] "root").Run
            (failingWorld .installKubeServiceAccountController)).trace
          = pre.map Event.call ++ [Event.call .installKubeServiceAccountController]
        ∧ ∀ t ∈ pre, (failingWorld .installKubeServiceAccountController).outcome t = none)
    ∧ Event.call .PrepareRun
        ∉ ((serverWith true [] "root").Run
            (failingWorld .installKubeServiceAccountController)).trace
    ∧ ((serverWith true [] "root").Run
        (failingWorld .installKubeServiceAccountController)).bootstrap = none :=
  have hinv : Event.call .installKubeServiceAccountController
        ∈ ((serverWith true [] "root").Run
            (failingWorld .installKubeServiceAccountController)).trace := by
    rw [call_mem_Run_trace]
    left
    decide
  ⟨hinv, by decide, by decide,
    Run_returns_first_error (serverWith true [] "root")
      (failingWorld .installKubeServiceAccountController)
      .installKubeServiceAccountController "boom" hinv (by decide) (by decide)⟩

/-! ## Ordering of the phases of the hook -/

theorem prefix_of_take (L : List Event) (Q : List Event → Event → Prop)
    (h : ∀ i, i < L.length → ∀ x ∈ L.get? i, Q (L.take i) x) :
    ∀ pre x post, L = pre ++ x :: post → Q pre x := by
  intro pre x post hL
  subst hL
  have h1 := h pre.length (by simp) x
    (by rw [List.get?_eq_getElem?, List.getElem?_append_right (le_refl _)]; simp)
  simpa using h1

theorem hook_started_in_order (s : Server) (env : HookEnv) (fuel : Nat) :
    started (startInformersHook s env fuel).trace <+: phaseOrder s.isRoot := by
  unfold startInformersHook startInformersHookTail
  simp only []
  repeat' split
  all_goals simp_all [started, Event.startOf, phaseOrder, Server.isRoot]

theorem hook_start_after_done (s : Server) (env : HookEnv) (fuel : Nat) :
    ∀ pre x post, (startInformersHook s env fuel).trace = pre ++ x :: post →
      ∀ p ∈ x.startOf, ∀ q ∈ started pre, Event.done q ∈ pre := by
  generalize ho : startInformersHook s env fuel = o
  apply prefix_of_take _ (fun pre x => ∀ p ∈ x.startOf, ∀ q ∈ started pre, Event.done q ∈ pre)
  unfold startInformersHook startInformersHookTail at ho
  simp only [] at ho
  repeat' split at ho
  all_goals subst ho; dsimp only; decide

theorem hook_abort_last (s : Server) (env : HookEnv) (fuel : Nat) (p : Phase)
    (h : Event.abort p ∈ (startInformersHook s env fuel).trace) :
    (startInformersHook s env fuel).trace.getLast? = some (.abort p)
    ∧ (started (startInformersHook s env fuel).trace).getLast? = some p := by
  revert h
  unfold startInformersHook startInformersHookTail
  simp only []
  repeat' split
  all_goals simp_all [started, Event.startOf]

theorem hook_ends (s : Server) (env : HookEnv) (fuel : Nat) :
    (startInformersHook s env fuel).result = .polling
    ∨ (∃ p, (startInformersHook s env fuel).trace.getLast? = some (.abort p))
    ∨ (started (startInformersHook s env fuel).trace = phaseOrder s.isRoot
        ∧ ∀ q ∈ phaseOrder s.isRoot, Event.done q ∈ (startInformersHook s env fuel).trace) := by
  unfold startInformersHook startInformersHookTail
  simp only []
  repeat' split
  all_goals simp_all [started, Event.startOf, phaseOrder, Server.isRoot]

theorem hook_stop_first (s : Server) (env : HookEnv) (fuel : Nat)
    (h : env.stopAfterFirstSync = true) :
    started (startInformersHook s env fuel).trace = [.InfrastructureCacheSync]
    ∧ (startInformersHook s env fuel).syncedCh = s.syncedCh := by
  unfold startInformersHook
  simp [h, started, Event.startOf]

theorem hook_stop_second (s : Server) (env : HookEnv) (fuel : Nat)
    (h : env.stopAfterSecondSync = true) :
    Phase.MarkReady ∉ started (startInformersHook s env fuel).trace
    ∧ Phase.RootPhase1 ∉ started (startInformersHook s env fuel).trace
    ∧ (startInformersHook s env fuel).syncedCh = s.syncedCh := by
  unfold startInformersHook startInformersHookTail
  simp only [h]
  repeat' split
  all_goals simp_all [started, Event.startOf]

/-! ## The synced gate -/

theorem hook_done_MarkReady_count (s : Server) (env : HookEnv) (fuel : Nat) :
    (startInformersHook s env fuel).trace.count (Event.done .MarkReady) ≤ 1 := by
  generalize ho : startInformersHook s env fuel = o
  unfold startInformersHook startInformersHookTail at ho
  simp only [] at ho
  repeat' split at ho
  all_goals subst ho; dsimp only; decide

theorem hook_gate_of_open (s : Server) (env : HookEnv) (fuel : Nat)
    (h : s.syncedCh = .isOpen) :
    (startInformersHook s env fuel).result ≠ .panicked
    ∧ ((startInformersHook s env fuel).syncedCh = .closed
        ↔ Event.done .MarkReady ∈ (startInformersHook s env fuel).trace) := by
  unfold startInformersHook startInformersHookTail
  simp only []
  repeat' split
  all_goals simp_all [Chan.close]

theorem hook_gate_of_closed (s : Server) (env : HookEnv) (fuel : Nat)
    (h : s.syncedCh = .closed)
    (hr : Event.start .MarkReady ∈ (startInformersHook s env fuel).trace) :
    (startInformersHook s env fuel).result = .panicked
    ∧ (startInformersHook s env fuel).syncedCh = s.syncedCh
    ∧ Event.done .MarkReady ∉ (startInformersHook s env fuel).trace := by
  revert hr
  unfold startInformersHook startInformersHookTail
  simp only []
  repeat' split
  all_goals simp_all [Chan.close]

theorem hook_fired_closed (s : Server) (env : HookEnv) (fuel : Nat)
    (h : Event.done .MarkReady ∈ (startInformersHook s env fuel).trace) :
    (startInformersHook s env fuel).syncedCh = .closed ∧ s.syncedCh = .isOpen := by
  revert h
  unfold startInformersHook startInformersHookTail
  simp only []
  repeat' split
  all_goals (cases hc : s.syncedCh <;> simp_all [Chan.close])

/-- C4, as the claim states it, fails: a second run of the hook on the server left by a
first, successful run panics at `close(s.syncedCh)`. -/
theorem second_MarkReady_panics :
    (startInformersHook
        ((serverWith true [] "root").afterHook
          (startInformersHook (serverWith true [] "root") quietHookEnv 2))
        quietHookEnv 2).result = HookResult.panicked := by
  decide

/-- C4, amended: a single run of the hook completes `MarkReady` (closes `syncedCh`) at
most once, and on a server whose gate is open it never panics. The gate is a bare channel
without a one-shot guard: when a run has fired the gate, a second run on the same server
that reaches `MarkReady` panics at `close(s.syncedCh)`; the channel stays closed and no
second completion of `MarkReady` is recorded. -/
theorem syncedCh_fires_once_then_panics (s : Server) (env₁ env₂ : HookEnv)
    (fuel₁ fuel₂ : Nat) :
    (startInformersHook s env₁ fuel₁).trace.count (Event.done .MarkReady) ≤ 1
    ∧ (s.syncedCh = .isOpen → (startInformersHook s env₁ fuel₁).result ≠ .panicked)
    ∧ (Event.done .MarkReady ∈ (startInformersHook s env₁ fuel₁).trace →
        Event.start .MarkReady
          ∈ (startInformersHook (s.afterHook (startInformersHook s env₁ fuel₁))
              env₂ fuel₂).trace →
        (startInformersHook (s.afterHook (startInformersHook s env₁ fuel₁))
            env₂ fuel₂).result = .panicked
        ∧ (startInformersHook (s.afterHook (startInformersHook s env₁ fuel₁))
            env₂ fuel₂).syncedCh = .closed
        ∧ Event.done .MarkReady
            ∉ (startInformersHook (s.afterHook (startInformersHook s env₁ fuel₁))
                env₂ fuel₂).trace) := by
  refine ⟨hook_done_MarkReady_count s env₁ fuel₁,
    fun h => (hook_gate_of_open s env₁ fuel₁ h).1, ?_⟩
  intro h1 h2
  have hc : (s.afterHook (startInformersHook s env₁ fuel₁)).syncedCh = .closed :=
    (hook_fired_closed s env₁ fuel₁ h1).1
  obtain ⟨r1, r2, r3⟩ := hook_gate_of_closed _ env₂ fuel₂ hc h2
  exact ⟨r1, r2.trans hc, r3⟩

/-- C6, as the claim states it, fails for `RootPhase1`: on the root shard, when
`configroot.Bootstrap` fails the gate has already been closed in that run. -/
theorem RootPhase1_fails_after_gate_closed :
    (serverWith true [] "root").syncedCh = .isOpen
    ∧ Event.abort .RootPhase1
        ∈ (startInformersHook (serverWith true [] "root") phase1FailsEnv 2).trace
    ∧ (startInformersHook (serverWith true [] "root") phase1FailsEnv 2).syncedCh = .closed := by
  decide

/-! ## The hook returns `nil` -/

theorem WaitFor_settles (cancelled : Nat → Bool) (cond : Nat → Bool × Option Err) (n : Nat)
    (h : cancelled n = true ∨ (cond n).2 ≠ none ∨ (cond n).1 = true) :
    ∀ fuel start, start ≤ n → n - start < fuel →
      (WaitForWithContext cancelled cond fuel start).result ≠ .pending := by
  intro fuel
  induction fuel with
  | zero => intro start _ h2; omega
  | succ k ih =>
    intro start h1 h2
    unfold WaitForWithContext
    by_cases hc : cancelled start = true
    · simp [hc]
    · simp only [hc]
      rcases hcond : cond start with ⟨b, e⟩
      cases e with
      | some e => simp
      | none =>
        cases b with
        | true => simp
        | false =>
          have hne : start ≠ n := by
            rintro rfl
            simp_all
          simpa using ih (start + 1) (by omega) (by omega)

theorem readiness_settles (env : HookEnv) (n : Nat)
    (h : env.readinessCancelled n = true
      ∨ ((env.hasSynced n).1 && (env.hasSynced n).2) = true) (fuel : Nat) (hf : n < fuel) :
    (PollInfiniteWithContext env.readinessCancelled
      (fun n => ((env.hasSynced n).1 && (env.hasSynced n).2, none)) fuel).result
      ≠ .pending := by
  unfold PollInfiniteWithContext
  apply WaitFor_settles _ _ n _ fuel 0 (Nat.zero_le _) (by omega)
  rcases h with h | h
  · exact Or.inl h
  · exact Or.inr (Or.inr h)

theorem identities_settle (env : HookEnv) (n : Nat)
    (h : env.resolveIdentities n = none ∨ env.identityCancelled (n + 1) = true) (fuel : Nat)
    (hf : n + 1 < fuel) :
    (PollImmediateInfiniteWithContext env.identityCancelled
      (fun n => match env.resolveIdentities n with
        | some _ => (false, none)
        | none => (true, none)) fuel).result ≠ .pending := by
  unfold PollImmediateInfiniteWithContext
  cases h0 : env.resolveIdentities 0 with
  | none => simp [h0]
  | some e =>
    simp only [h0]
    rcases h with h | h
    · have hn : 1 ≤ n := by
        rcases Nat.eq_zero_or_pos n with hz | hp
        · rw [hz, h0] at h
          cases h
        · exact hp
      exact WaitFor_settles _ _ n (Or.inr (Or.inr (by simp [h]))) fuel 1 hn (by omega)
    · exact WaitFor_settles _ _ (n + 1) (Or.inl h) fuel 1 (by omega) (by omega)

theorem NewServer_open (c : CompletedConfig) (nenv : NewServerEnv) (s : Server)
    (h : NewServer c nenv = .ok s) : s.syncedCh = .isOpen ∧ s.CompletedConfig = c := by
  unfold NewServer at h
  cases h1 : nenv.CreateServerChain <;>
    cases h2 : nenv.NewDynamicDiscoverySharedInformerFactory <;>
    simp [h1, h2] at h
  subst h
  exact ⟨rfl, rfl⟩

theorem hook_result_of_open (s : Server) (env : HookEnv) (fuel : Nat)
    (h : s.syncedCh = .isOpen) :
    (startInformersHook s env fuel).result = .returned none
    ∨ ((startInformersHook s env fuel).result = .polling
        ∧ ((PollInfiniteWithContext env.readinessCancelled
              (fun n => ((env.hasSynced n).1 && (env.hasSynced n).2, none)) fuel).result
              = .pending
          ∨ (PollImmediateInfiniteWithContext env.identityCancelled
              (fun n => match env.resolveIdentities n with
                | some _ => (false, none)
                | none => (true, none)) fuel).result = .pending)) := by
  unfold startInformersHook startInformersHookTail
  simp only []
  repeat' split
  all_goals first
    | (right; refine ⟨rfl, ?_⟩; first | (left; assumption) | (right; assumption))
    | simp_all [Chan.close]

/-- C5: on a server built by `NewServer`, for every shard name and every behaviour of
the collaborators, the `kcp-start-informers` hook never returns an error and never
panics: as long as it has returned, it has returned `nil`. And it does return: once each
of its two polls has an outcome (the readiness poll sees both informers synced or is
cancelled in some round, the identity poll sees `resolveIdentities` succeed or is
cancelled in some round), following enough poll rounds yields the result `nil`. -/
theorem hook_returns_nil (c : CompletedConfig) (nenv : NewServerEnv) (s : Server)
    (hs : NewServer c nenv = .ok s) (env : HookEnv) :
    (∀ fuel, (startInformersHook s env fuel).result = .returned none
        ∨ (startInformersHook s env fuel).result = .polling)
    ∧ ((∃ n, env.readinessCancelled n = true
            ∨ ((env.hasSynced n).1 && (env.hasSynced n).2) = true) →
        (∃ n, env.resolveIdentities n = none ∨ env.identityCancelled (n + 1) = true) →
        ∃ N, ∀ fuel, N ≤ fuel → (startInformersHook s env fuel).result = .returned none) := by
  have ho := (NewServer_open c nenv s hs).1
  constructor
  · intro fuel
    rcases hook_result_of_open s env fuel ho with h | ⟨h, -⟩
    · exact Or.inl h
    · exact Or.inr h
  · rintro ⟨n₁, h₁⟩ ⟨n₂, h₂⟩
    refine ⟨n₁ + n₂ + 2, fun fuel hf => ?_⟩
    rcases hook_result_of_open s env fuel ho with h | ⟨-, h | h⟩
    · exact h
    · exact absurd h (readiness_settles env n₁ h₁ fuel (by omega))
    · exact absurd h (identities_settle env n₂ h₂ fuel (by omega))

/-- Witness for C5: a root-shard server built by `NewServer`, with
`configrootphase0.Bootstrap` failing. -/
theorem hook_returns_nil_witness :
    NewServer (configWith true [] "root") ⟨none, none⟩ = .ok (serverWith true [] "root")
    ∧ (∀ fuel,
        (startInformersHook (serverWith true [] "root") phase0FailsEnv fuel).result
            = .returned none
        ∨ (startInformersHook (serverWith true [] "root") phase0FailsEnv fuel).result
            = .polling)
    ∧ (∃ N, ∀ fuel, N ≤ fuel →
        (startInformersHook (serverWith true [] "root") phase0FailsEnv fuel).result
          = .returned none) :=
  ⟨rfl,
    (hook_returns_nil (configWith true [] "root") ⟨none, none⟩ (serverWith true [] "root") rfl
      phase0FailsEnv).1,
    (hook_returns_nil (configWith true [] "root") ⟨none, none⟩ (serverWith true [] "root") rfl
      phase0FailsEnv).2 ⟨0, by decide⟩ ⟨0, by decide⟩⟩

/-! ## Root phases and the dependent watchers -/

/-- C10, as the claim states it, fails: on the root shard, in a run where everything
succeeds, the readiness poll completes (both informers observed as synced) before
`RootPhase0` starts, so `RootPhase0` does not complete before it. -/
theorem RootPhase0_not_before_watchers_synced :
    (serverWith true [] "root").isRoot = true
    ∧ Event.done .RootPhase0
        ∈ (startInformersHook (serverWith true [] "root") quietHookEnv 2).trace
    ∧ ¬ Precedes (.done .RootPhase0) (.done .PollForMinimalReadiness)
        (startInformersHook (serverWith true [] "root") quietHookEnv 2).trace
    ∧ Precedes (.done .PollForMinimalReadiness) (.start .RootPhase0)
        (startInformersHook (serverWith true [] "root") quietHookEnv 2).trace := by
  decide

theorem hook_root_order (s : Server) (env : HookEnv) (fuel : Nat) :
    (Event.start .RootPhase0 ∈ (startInformersHook s env fuel).trace →
      Precedes (.done .PollForMinimalReadiness) (.start .RootPhase0)
        (startInformersHook s env fuel).trace)
    ∧ (Event.start .RootPhase1 ∈ (startInformersHook s env fuel).trace →
      Precedes (.done .RootPhase0) (.start .RootPhase1) (startInformersHook s env fuel).trace
      ∧ Precedes (.done .PollForMinimalReadiness) (.start .RootPhase1)
          (startInformersHook s env fuel).trace)
    ∧ ¬ Precedes (.done .RootPhase0) (.done .PollForMinimalReadiness)
          (startInformersHook s env fuel).trace
    ∧ (Event.done .RootPhase0 ∈ (startInformersHook s env fuel).trace →
        Event.done .SecondCacheSync ∈ (startInformersHook s env fuel).trace →
        Precedes (.done .RootPhase0) (.done .SecondCacheSync)
          (startInformersHook s env fuel).trace) := by
  generalize ho : startInformersHook s env fuel = o
  unfold startInformersHook startInformersHookTail at ho
  simp only [] at ho
  repeat' split at ho
  all_goals subst ho; dsimp only; decide

theorem hook_root_phases_started (s : Server) (env : HookEnv) (fuel : Nat)
    (hroot : s.isRoot = true)
    (hret : (startInformersHook s env fuel).result = .returned none)
    (hno : ∀ p, Event.abort p ∉ (startInformersHook s env fuel).trace) :
    Event.start .RootPhase0 ∈ (startInformersHook s env fuel).trace
    ∧ Event.start .RootPhase1 ∈ (startInformersHook s env fuel).trace := by
  revert hret hno
  unfold Server.isRoot at hroot
  unfold startInformersHook startInformersHookTail
  simp only [hroot]
  repeat' split
  all_goals simp_all

/-! ## Order of calls in a trace -/

theorem precedes_append_of_mem (a b : Event) (X Y : List Event) (ha : a ∈ X) (hb : b ∈ Y) :
    Precedes a b (X ++ Y) := by
  obtain ⟨y₁, y₂, rfl⟩ := List.append_of_mem hb
  refine ⟨(X ++ y₁).length, ?_, ?_, ?_⟩
  · simp
  · rw [← List.append_assoc, List.get?_eq_getElem?, List.getElem?_append_right (le_refl _)]
    simp
  · rw [← List.append_assoc, List.take_left]
    exact List.mem_append_left _ ha

theorem not_precedes_append (a b : Event) (X Y : List Event) (ha : a ∉ X) (hb : b ∉ Y) :
    ¬ Precedes a b (X ++ Y) := by
  rintro ⟨i, -, hget, hmem⟩
  by_cases hi : i < X.length
  · rw [List.take_append_of_le_length (le_of_lt hi)] at hmem
    exact ha (List.mem_of_mem_take hmem)
  · rw [List.get?_eq_getElem?, List.getElem?_append_right (not_lt.mp hi)] at hget
    exact hb (List.getElem?_mem hget)

theorem not_precedes_of_not_mem (a b : Event) (X : List Event) (ha : a ∉ X) :
    ¬ Precedes a b X := by
  rintro ⟨i, -, -, hmem⟩
  exact ha (List.mem_of_mem_take hmem)

/-! ## Installs come before the server is started -/

theorem isInstall_ne_PrepareRun (st : Step) (h : st.isInstall = true) : st ≠ .PrepareRun := by
  rintro rfl
  simp [Step.isInstall] at h

/-- C7, as the claim states it, fails: with every call succeeding, the quota install is
called and the hook later completes `MarkReady`, yet `MarkReady` does not come before the
install call; the install call comes before `MarkReady`. -/
theorem install_called_before_MarkReady :
    Event.call .installKubeQuotaController
        ∈ ((serverWith true [] "root").Run (quietWorld true)).trace
    ∧ Event.done .MarkReady ∈ ((serverWith true [] "root").Run (quietWorld true)).trace
    ∧ ¬ Precedes (.done .MarkReady) (.call .installKubeQuotaController)
        ((serverWith true [] "root").Run (quietWorld true)).trace
    ∧ Precedes (.call .installKubeQuotaController) (.done .MarkReady)
        ((serverWith true [] "root").Run (quietWorld true)).trace := by
  decide

/-- C7, amended: `Run` only registers the bootstrap hook before it calls the install
functions; the hook runs when the server is started by `PrepareRun().Run`, after every
install call. In the trace of every run no install call comes after the `MarkReady` step,
and when `MarkReady` is completed every install call that was made comes before the call
of `PrepareRun().Run`, which comes before `MarkReady`. -/
theorem installs_precede_MarkReady (s : Server) (w : World) (st : Step)
    (hst : st.isInstall = true) :
    ¬ Precedes (.done .MarkReady) (.call st) (s.Run w).trace
    ∧ (Event.call st ∈ (s.Run w).trace → Event.done .MarkReady ∈ (s.Run w).trace →
        Precedes (.call st) (.call .PrepareRun) (s.Run w).trace
        ∧ Precedes (.call .PrepareRun) (.done .MarkReady) (s.Run w).trace
        ∧ Precedes (.call st) (.done .MarkReady) (s.Run w).trace) := by
  have hne := isInstall_ne_PrepareRun st hst
  rw [Run_eq]
  unfold runSpec
  cases h : firstError w.outcome (plan s w) with
  | some e =>
    simp only []
    refine ⟨not_precedes_of_not_mem _ _ _ (by simp), ?_⟩
    intro _ hd
    simp at hd
  | none =>
    simp only []
    constructor
    · rw [List.append_assoc]
      apply not_precedes_append
      · simp
      · simp [hook_trace_no_call, hne]
    · intro hc hd
      have hc1 : Event.call st ∈ (plan s w).map Event.call := by
        simpa [hook_trace_no_call, hne] using hc
      have hd1 : Event.done .MarkReady ∈ (startInformersHook s w.hookEnv w.fuel).trace := by
        simpa using hd
      refine ⟨?_, ?_, ?_⟩
      · rw [List.append_assoc]
        exact precedes_append_of_mem _ _ _ _ hc1 (by simp)
      · exact precedes_append_of_mem _ _ _ _ (by simp) hd1
      · rw [List.append_assoc]
        exact precedes_append_of_mem _ _ _ _ hc1 (by simp [hd1])

/-- Witness for C7: the quota install on a server where every call succeeds. -/
theorem installs_precede_MarkReady_witness :
    Step.installKubeQuotaController.isInstall = true
    ∧ ¬ Precedes (.done .MarkReady) (.call .installKubeQuotaController)
        ((serverWith true [] "root").Run (quietWorld true)).trace
    ∧ Precedes (.call .installKubeQuotaController) (.call .PrepareRun)
        ((serverWith true [] "root").Run (quietWorld true)).trace
    ∧ Precedes (.call .PrepareRun) (.done .MarkReady)
        ((serverWith true [] "root").Run (quietWorld true)).trace
    ∧ Precedes (.call .installKubeQuotaController) (.done .MarkReady)
        ((serverWith true [] "root").Run (quietWorld true)).trace :=
  ⟨by decide,
    (installs_precede_MarkReady (serverWith true [] "root") (quietWorld true)
      .installKubeQuotaController (by decide)).1,
    (installs_precede_MarkReady (serverWith true [] "root") (quietWorld true)
      .installKubeQuotaController (by decide)).2 (by decide) (by decide)⟩

/-! ## Activation gating -/

theorem earlier_than_install (st t : Step) (hst : st.isInstall = true)
    (hlt : t.sourceOrder < st.sourceOrder) :
    t.isInstall = true ∨ ∃ h, t = .AddPostStartHook h := by
  cases st <;> simp [Step.isInstall] at hst <;>
    cases t <;> simp [Step.sourceOrder, Step.isInstall] at hlt ⊢

/-- When the hook registrations and the install functions succeed, the install functions
invoked are exactly those of the plan. -/
theorem install_invoked_iff_mem_plan (s : Server) (w : World)
    (hreg : ∀ h, w.outcome (.AddPostStartHook h) = none)
    (hok : ∀ t, t.isInstall = true → w.outcome t = none)
    (st : Step) (hst : st.isInstall = true) :
    Event.call st ∈ (s.Run w).trace ↔ st ∈ plan s w := by
  rw [call_mem_Run_trace]
  constructor
  · rintro (h | ⟨h, -⟩)
    · exact invoked_subset _ _ _ h
    · exact absurd h (isInstall_ne_PrepareRun st hst)
  · intro h
    left
    apply mem_invoked_of_earlier_ok _ _ _ (plan_sorted s w) h
    intro t _ hlt
    rcases earlier_than_install st t hst hlt with h1 | ⟨k, rfl⟩
    · exact hok t h1
    · exact hreg k

theorem group_install_isInstall (g : Group) (st : Step) (h : st ∈ g.installs) :
    st.isInstall = true := by
  cases g <;> simp only [Group.installs, List.mem_cons, List.mem_singleton, List.not_mem_nil,
    or_false] at h <;> (try casesm* _ ∨ _) <;> subst_vars <;> rfl

/-- C8, as the claim states it, fails: with `IndividuallyEnabled = ["quota"]`,
`EnableAll = false` and every call succeeding, `Run` also calls install functions other
than `installKubeQuotaController`, such as `installKubeNamespaceController`. -/
theorem quota_only_still_installs_namespace :
    (serverWith false ["quota"] "root").CompletedConfig.Options.Controllers.EnableAll = false
    ∧ (serverWith false ["quota"] "root").CompletedConfig.Options.Controllers.IndividuallyEnabled
        = ["quota"]
    ∧ Step.installKubeNamespaceController.isInstall = true
    ∧ Step.installKubeNamespaceController ≠ Step.installKubeQuotaController
    ∧ Event.call .installKubeNamespaceController
        ∈ ((serverWith false ["quota"] "root").Run (quietWorld true)).trace := by
  decide

theorem invoked_sublist (o : Step → Option Err) (l : List Step) :
    (invoked o l).Sublist l := by
  induction l with
  | nil => simp [invoked]
  | cons x r ih =>
    cases hx : o x with
    | some e => simp [invoked, hx]
    | none => simpa [invoked, hx] using ih

theorem call_injective : Function.Injective Event.call := by
  intro a b h
  cases h
  rfl

theorem allSteps_nodup : allSteps.Nodup := by
  decide

/-- No call occurs twice in the trace of `Run`. -/
theorem Run_call_count_le_one (s : Server) (w : World) (st : Step) :
    (s.Run w).trace.count (Event.call st) ≤ 1 := by
  have hnd : ∀ l : List Step, l.Sublist (plan s w) →
      (l.map Event.call).count (Event.call st) ≤ 1 := by
    intro l hl
    apply List.nodup_iff_count_le_one.mp
    exact ((allSteps_nodup.sublist (plan_sublist s w)).sublist hl).map call_injective
  rw [Run_eq]
  unfold runSpec
  cases h : firstError w.outcome (plan s w) with
  | some e => exact hnd _ (invoked_sublist _ _)
  | none =>
    simp only [List.count_append]
    have h1 := hnd _ (List.Sublist.refl (plan s w))
    have h3 : (startInformersHook s w.hookEnv w.fuel).trace.count (Event.call st) = 0 :=
      List.count_eq_zero_of_not_mem (hook_trace_no_call s w.hookEnv w.fuel st)
    by_cases hp : st = .PrepareRun
    · subst hp
      have h0 : ((plan s w).map Event.call).count (Event.call .PrepareRun) = 0 := by
        apply List.count_eq_zero_of_not_mem
        simp [PrepareRun_not_mem_plan]
      simp [h0, h3]
    · have h2 : [Event.call Step.PrepareRun].count (Event.call st) = 0 := by
        apply List.count_eq_zero_of_not_mem
        simpa using hp
      omega

/-- C9, as the claim states it, fails: with `EnableAll = true` and every call succeeding
but the `LocationAPI` feature gate off, the install functions of the scheduling group are
not invoked. -/
theorem enableAll_without_LocationAPI_skips_scheduling :
    (serverWith true [] "root").CompletedConfig.Options.Controllers.EnableAll = true
    ∧ Step.installWorkloadNamespaceScheduler ∈ Group.scheduling.installs
    ∧ Event.call .installWorkloadNamespaceScheduler
        ∉ ((serverWith true [] "root").Run (quietWorld false)).trace := by
  decide

/-- C9, amended: with `EnableAll = true`, and the hook registrations and every install
succeeding, `Run` invokes exactly once each install function of every named controller
group whose feature gate holds, whatever `IndividuallyEnabled` contains; the scheduling
group, gated by `LocationAPI`, is not installed when that gate is off. -/
theorem enableAll_installs_gated_groups_once (s : Server) (w : World)
    (hall : s.CompletedConfig.Options.Controllers.EnableAll = true)
    (hreg : ∀ h, w.outcome (.AddPostStartHook h) = none)
    (hok : ∀ t, t.isInstall = true → w.outcome t = none) :
    ∀ (g : Group) (st : Step), st ∈ g.installs →
      (g.featureGate w = true → (s.Run w).trace.count (Event.call st) = 1)
      ∧ (g.featureGate w = false → Event.call st ∉ (s.Run w).trace) := by
  intro g st hst
  have hiff : Event.call st ∈ (s.Run w).trace ↔ g.featureGate w = true := by
    rw [install_invoked_iff_mem_plan s w hreg hok _ (group_install_isInstall g st hst),
      mem_plan_group_iff s w g st hst]
    simp [hall]
  constructor
  · intro hg
    have h1 := Run_call_count_le_one s w st
    have h2 : 0 < (s.Run w).trace.count (Event.call st) :=
      List.count_pos_iff.mpr (hiff.mpr hg)
    omega
  · intro hg hc
    rw [hiff.mp hc] at hg
    cases hg

/-- Witness for C9: `EnableAll = true` with a name in `IndividuallyEnabled` that is
not a group, every call succeeding and `LocationAPI` on: the first install of the
scheduling group is called exactly once. -/
theorem enableAll_installs_gated_groups_once_witness :
    (serverWith true ["other"] "root").CompletedConfig.Options.Controllers.EnableAll = true
    ∧ ((serverWith true ["other"] "root").Run (quietWorld true)).trace.count
        (Event.call .installWorkloadNamespaceScheduler) = 1 :=
  ⟨rfl,
    (enableAll_installs_gated_groups_once (serverWith true ["other"] "root") (quietWorld true)
      rfl (fun _ => rfl) (fun _ _ => rfl) .scheduling .installWorkloadNamespaceScheduler
      (by decide)).1 rfl⟩

/-! ## Root phases run on the root shard only -/

theorem hook_root_phase_starts (s : Server) (env : HookEnv) (fuel : Nat) :
    (Event.start .RootPhase0 ∈ (startInformersHook s env fuel).trace ↔
        s.isRoot = true
        ∧ Event.done .PollForMinimalReadiness ∈ (startInformersHook s env fuel).trace)
    ∧ (Event.start .RootPhase1 ∈ (startInformersHook s env fuel).trace ↔
        s.isRoot = true ∧ Event.done .MarkReady ∈ (startInformersHook s env fuel).trace) := by
  unfold Server.isRoot startInformersHook startInformersHookTail
  simp only []
  repeat' split
  all_goals simp_all

theorem hook_root_phase_counts (s : Server) (env : HookEnv) (fuel : Nat) :
    (startInformersHook s env fuel).trace.count (Event.start .RootPhase0) ≤ 1
    ∧ (startInformersHook s env fuel).trace.count (Event.start .RootPhase1) ≤ 1 := by
  generalize ho : startInformersHook s env fuel = o
  unfold startInformersHook startInformersHookTail at ho
  simp only [] at ho
  repeat' split at ho
  all_goals subst ho; dsimp only; decide

/-- C11: `configrootphase0.Bootstrap` (`RootPhase0`) and `configroot.Bootstrap`
(`RootPhase1`) are invoked only when `Options.Extra.ShardName` equals the root shard
name. On any other shard no run of the hook starts either. On the root shard `RootPhase0`
is invoked exactly once in every run in which the phases before it succeeded (the
readiness poll completed), `RootPhase1` exactly once in every run in which the phases
before it succeeded (`MarkReady` completed), and neither is invoked in any other run. -/
theorem root_phases_only_on_root_shard (s : Server) (env : HookEnv) (fuel : Nat) :
    (s.CompletedConfig.Options.Extra.ShardName ≠ RootShard →
        Event.start .RootPhase0 ∉ (startInformersHook s env fuel).trace
        ∧ Event.start .RootPhase1 ∉ (startInformersHook s env fuel).trace)
    ∧ (s.CompletedConfig.Options.Extra.ShardName = RootShard →
        (Event.done .PollForMinimalReadiness ∈ (startInformersHook s env fuel).trace →
          (startInformersHook s env fuel).trace.count (Event.start .RootPhase0) = 1)
        ∧ (Event.done .MarkReady ∈ (startInformersHook s env fuel).trace →
          (startInformersHook s env fuel).trace.count (Event.start .RootPhase1) = 1)
        ∧ (Event.start .RootPhase0 ∈ (startInformersHook s env fuel).trace →
          Event.done .PollForMinimalReadiness ∈ (startInformersHook s env fuel).trace)
        ∧ (Event.start .RootPhase1 ∈ (startInformersHook s env fuel).trace →
          Event.done .MarkReady ∈ (startInformersHook s env fuel).trace)) := by
  obtain ⟨h0, h1⟩ := hook_root_phase_starts s env fuel
  obtain ⟨c0, c1⟩ := hook_root_phase_counts s env fuel
  have hroot : s.isRoot = true ↔ s.CompletedConfig.Options.Extra.ShardName = RootShard := by
    simp [Server.isRoot]
  refine ⟨fun hne => ⟨fun h => hne (hroot.mp (h0.mp h).1), fun h => hne (hroot.mp (h1.mp h).1)⟩,
    fun heq => ⟨fun hd => ?_, fun hd => ?_, fun h => (h0.mp h).2, fun h => (h1.mp h).2⟩⟩
  · have := List.count_pos_iff.mpr (h0.mpr ⟨hroot.mpr heq, hd⟩)
    omega
  · have := List.count_pos_iff.mpr (h1.mpr ⟨hroot.mpr heq, hd⟩)
    omega

/-- Witness for C11: on a shard named `"east"` with every collaborator succeeding no root
phase starts; on the root shard with every collaborator succeeding each starts once. -/
theorem root_phases_only_on_root_shard_witness :
    (serverWith true [] "east").CompletedConfig.Options.Extra.ShardName ≠ RootShard
    ∧ Event.start .RootPhase0
        ∉ (startInformersHook (serverWith true [] "east") quietHookEnv 2).trace
    ∧ Event.start .RootPhase1
        ∉ (startInformersHook (serverWith true [] "east") quietHookEnv 2).trace
    ∧ (startInformersHook (serverWith true [] "root") quietHookEnv 2).trace.count
        (Event.start .RootPhase0) = 1
    ∧ (startInformersHook (serverWith true [] "root") quietHookEnv 2).trace.count
        (Event.start .RootPhase1) = 1 :=
  ⟨by decide,
    ((root_phases_only_on_root_shard (serverWith true [] "east") quietHookEnv 2).1
      (by decide)).1,
    ((root_phases_only_on_root_shard (serverWith true [] "east") quietHookEnv 2).1
      (by decide)).2,
    ((root_phases_only_on_root_shard (serverWith true [] "root") quietHookEnv 2).2
      (by decide)).1 (by decide),
    ((root_phases_only_on_root_shard (serverWith true [] "root") quietHookEnv 2).2
      (by decide)).2.1 (by decide)⟩

/-! ## The identity resolution loop -/

theorem hookTail_identityPoll (s : Server) (env : HookEnv) (fuel : Nat) (t : List Event)
    (n : Nat) :
    (startInformersHookTail s env fuel t n).resolveCalls = (identityPoll env fuel).calls
    ∧ ((identityPoll env fuel).result = .ok →
        Event.done .IdentityResolutionLoop ∈ (startInformersHookTail s env fuel t n).trace
        ∧ Event.start .SecondCacheSync ∈ (startInformersHookTail s env fuel t n).trace)
    ∧ (∀ e, (identityPoll env fuel).result = .err e →
        Event.abort .IdentityResolutionLoop ∈ (startInformersHookTail s env fuel t n).trace
        ∧ (startInformersHookTail s env fuel t n).result = .returned none) := by
  unfold startInformersHookTail
  simp only []
  split
  · rename_i heq
    have hq : (identityPoll env fuel).result = .pending := heq
    exact ⟨rfl, by simp [hq], by simp [hq]⟩
  · rename_i e heq
    have hq : (identityPoll env fuel).result = .err e := heq
    exact ⟨rfl, by simp [hq], by simp⟩
  · rename_i heq
    have hq : (identityPoll env fuel).result = .ok := heq
    repeat' split
    all_goals exact ⟨rfl, by simp, by simp [hq]⟩

theorem WaitFor_identity_success (env : HookEnv) (m : Nat)
    (hsucc : env.resolveIdentities m = none) :
    ∀ fuel i, i ≤ m → m - i < fuel →
      (∀ k, i ≤ k → k < m → env.resolveIdentities k ≠ none) →
      (∀ k, i ≤ k → k ≤ m → env.identityCancelled k = false) →
      WaitForWithContext env.identityCancelled (identityCondition env) fuel i
        = ⟨m + 1, .ok⟩ := by
  intro fuel
  induction fuel with
  | zero => intro i _ h; omega
  | succ f ih =>
    intro i hi hf hfail hnc
    unfold WaitForWithContext
    simp only [hnc i (le_refl _) hi, Bool.false_eq_true, if_false]
    rcases Nat.eq_or_lt_of_le hi with heq | hlt
    · subst heq
      simp [identityCondition, hsucc]
    · cases hr : env.resolveIdentities i with
      | none => exact absurd hr (hfail i (le_refl _) hlt)
      | some e =>
        simp only [identityCondition, hr]
        exact ih (i + 1) hlt (by omega) (fun k hk hkm => hfail k (by omega) hkm)
          (fun k hk hkm => hnc k (by omega) hkm)

theorem identityPoll_success (env : HookEnv) (n : Nat) (hn : 1 ≤ n)
    (hfail : ∀ k, k + 1 < n → env.resolveIdentities k ≠ none)
    (hsucc : env.resolveIdentities (n - 1) = none)
    (hnc : ∀ k, 1 ≤ k → k < n → env.identityCancelled k = false)
    (fuel : Nat) (hf : n ≤ fuel) :
    identityPoll env fuel = ⟨n, .ok⟩ := by
  unfold identityPoll PollImmediateInfiniteWithContext
  rcases Nat.eq_or_lt_of_le hn with h1 | h1
  · subst h1
    simp [identityCondition, hsucc]
  · cases h0 : env.resolveIdentities 0 with
    | none => exact absurd h0 (hfail 0 (by omega))
    | some e =>
      simp only [identityCondition, h0]
      have := WaitFor_identity_success env (n - 1) hsucc fuel 1 (by omega) (by omega)
        (fun k hk hkm => hfail k (by omega)) (fun k hk hkm => hnc k hk (by omega))
      rw [this]
      congr 1
      omega

theorem WaitFor_identity_err (env : HookEnv) :
    ∀ fuel i e,
      (WaitForWithContext env.identityCancelled (identityCondition env) fuel i).result
        = .err e →
      e = ErrWaitTimeout
      ∧ env.identityCancelled
          (WaitForWithContext env.identityCancelled (identityCondition env) fuel i).calls
          = true
      ∧ i ≤ (WaitForWithContext env.identityCancelled (identityCondition env) fuel i).calls
      ∧ ∀ k, i ≤ k →
          k < (WaitForWithContext env.identityCancelled (identityCondition env) fuel i).calls →
          env.resolveIdentities k ≠ none := by
  intro fuel
  induction fuel with
  | zero =>
    intro i e h
    simp [WaitForWithContext] at h
  | succ f ih =>
    intro i e
    by_cases hc : env.identityCancelled i = true
    · have hv : WaitForWithContext env.identityCancelled (identityCondition env) (f + 1) i
          = ⟨i, .err ErrWaitTimeout⟩ := by
        rw [WaitForWithContext]
        simp [hc]
      rw [hv]
      intro h
      refine ⟨?_, hc, le_refl _, fun k hk hki => absurd hki (by simp; omega)⟩
      simp only [PollResult.err.injEq] at h
      exact h.symm
    · cases hr : env.resolveIdentities i with
      | none =>
        have hv : WaitForWithContext env.identityCancelled (identityCondition env) (f + 1) i
            = ⟨i + 1, .ok⟩ := by
          rw [WaitForWithContext]
          simp [hc, identityCondition, hr]
        rw [hv]
        intro h
        cases h
      | some e2 =>
        have hv : WaitForWithContext env.identityCancelled (identityCondition env) (f + 1) i
            = WaitForWithContext env.identityCancelled (identityCondition env) f (i + 1) := by
          rw [WaitForWithContext]
          simp [hc, identityCondition, hr]
        rw [hv]
        intro h
        obtain ⟨h1, h2, h3, h4⟩ := ih (i + 1) e h
        refine ⟨h1, h2, by omega, fun k hk hki => ?_⟩
        rcases Nat.eq_or_lt_of_le hk with heq | hlt
        · subst heq
          simp [hr]
        · exact h4 k hlt hki

theorem identityPoll_err (env : HookEnv) (fuel : Nat) (e : Err)
    (h : (identityPoll env fuel).result = .err e) :
    e = ErrWaitTimeout
    ∧ 1 ≤ (identityPoll env fuel).calls
    ∧ env.identityCancelled (identityPoll env fuel).calls = true
    ∧ ∀ k, k < (identityPoll env fuel).calls → env.resolveIdentities k ≠ none := by
  revert h
  unfold identityPoll PollImmediateInfiniteWithContext
  cases h0 : env.resolveIdentities 0 with
  | none => simp [identityCondition, h0]
  | some e0 =>
    simp only [identityCondition, h0]
    intro h
    obtain ⟨h1, h2, h3, h4⟩ := WaitFor_identity_err env fuel 1 e h
    refine ⟨h1, h3, h2, fun k hk => ?_⟩
    rcases Nat.eq_zero_or_pos k with hz | hp
    · subst hz
      simp [h0]
    · exact h4 k hp hk

theorem hookTail_abort_identity (s : Server) (env : HookEnv) (fuel : Nat) (t : List Event)
    (n : Nat) (ht : Event.abort .IdentityResolutionLoop ∉ t)
    (h : Event.abort .IdentityResolutionLoop ∈ (startInformersHookTail s env fuel t n).trace) :
    ∃ e, (identityPoll env fuel).result = .err e := by
  revert h
  unfold startInformersHookTail
  simp only []
  split
  · simp [ht]
  · rename_i e heq
    have hq : (identityPoll env fuel).result = .err e := heq
    exact fun _ => ⟨e, hq⟩
  · repeat' split
    all_goals simp [ht]

/-- What the identity poll means for a run of the hook that reaches it. -/
theorem hook_identityPoll (s : Server) (env : HookEnv) (fuel : Nat) :
    (Event.start .IdentityResolutionLoop ∈ (startInformersHook s env fuel).trace →
      (startInformersHook s env fuel).resolveCalls = (identityPoll env fuel).calls
      ∧ ((identityPoll env fuel).result = .ok →
          Event.done .IdentityResolutionLoop ∈ (startInformersHook s env fuel).trace
          ∧ Event.start .SecondCacheSync ∈ (startInformersHook s env fuel).trace)
      ∧ (∀ e, (identityPoll env fuel).result = .err e →
          Event.abort .IdentityResolutionLoop ∈ (startInformersHook s env fuel).trace
          ∧ (startInformersHook s env fuel).result = .returned none))
    ∧ (Event.abort .IdentityResolutionLoop ∈ (startInformersHook s env fuel).trace →
        (∃ e, (identityPoll env fuel).result = .err e)
        ∧ (startInformersHook s env fuel).resolveCalls = (identityPoll env fuel).calls
        ∧ (startInformersHook s env fuel).result = .returned none) := by
  have tail : ∀ (t : List Event) (n : Nat), Event.abort .IdentityResolutionLoop ∉ t →
      (Event.start .IdentityResolutionLoop ∈ (startInformersHookTail s env fuel t n).trace →
        (startInformersHookTail s env fuel t n).resolveCalls = (identityPoll env fuel).calls
        ∧ ((identityPoll env fuel).result = .ok →
            Event.done .IdentityResolutionLoop ∈ (startInformersHookTail s env fuel t n).trace
            ∧ Event.start .SecondCacheSync ∈ (startInformersHookTail s env fuel t n).trace)
        ∧ (∀ e, (identityPoll env fuel).result = .err e →
            Event.abort .IdentityResolutionLoop
              ∈ (startInformersHookTail s env fuel t n).trace
            ∧ (startInformersHookTail s env fuel t n).result = .returned none))
      ∧ (Event.abort .IdentityResolutionLoop ∈ (startInformersHookTail s env fuel t n).trace →
          (∃ e, (identityPoll env fuel).result = .err e)
          ∧ (startInformersHookTail s env fuel t n).resolveCalls
              = (identityPoll env fuel).calls
          ∧ (startInformersHookTail s env fuel t n).result = .returned none) := by
    intro t n ht
    refine ⟨fun _ => hookTail_identityPoll s env fuel t n, fun h => ?_⟩
    obtain ⟨e, he⟩ := hookTail_abort_identity s env fuel t n ht h
    exact ⟨⟨e, he⟩, (hookTail_identityPoll s env fuel t n).1,
      ((hookTail_identityPoll s env fuel t n).2.2 e he).2⟩
  generalize ho : startInformersHook s env fuel = o
  unfold startInformersHook at ho
  simp only [] at ho
  repeat' split at ho
  all_goals subst ho
  all_goals first
    | exact tail _ _ (by simp)
    | simp

/-- C12: the identity resolution loop retries until success. Whenever the first success
of `resolveIdentities` is its n-th call (n at least 1) and no cancellation is observed in
the rounds before it, the poll, followed for at least n rounds, ends successfully after
exactly n calls, and a run of the hook that reached the loop has called
`resolveIdentities` exactly n times, completes the loop and starts `SecondCacheSync`. A
failed call never ends the loop: the only error the poll returns is the one for a
cancelled context, and when the loop is aborted the hook still returns `nil`, a
cancellation was observed in some round k, and the k calls made before it all failed. -/
theorem identity_loop_retries_until_success (s : Server) (env : HookEnv) :
    (∀ n fuel, 1 ≤ n → n ≤ fuel →
        (∀ k, k + 1 < n → env.resolveIdentities k ≠ none) →
        env.resolveIdentities (n - 1) = none →
        (∀ k, 1 ≤ k → k < n → env.identityCancelled k = false) →
        identityPoll env fuel = ⟨n, .ok⟩
        ∧ (Event.start .IdentityResolutionLoop ∈ (startInformersHook s env fuel).trace →
            (startInformersHook s env fuel).resolveCalls = n
            ∧ Event.done .IdentityResolutionLoop ∈ (startInformersHook s env fuel).trace
            ∧ Event.start .SecondCacheSync ∈ (startInformersHook s env fuel).trace))
    ∧ (∀ fuel e, (identityPoll env fuel).result = .err e → e = ErrWaitTimeout)
    ∧ (∀ fuel, Event.abort .IdentityResolutionLoop ∈ (startInformersHook s env fuel).trace →
        (startInformersHook s env fuel).result = .returned none
        ∧ ∃ k, 1 ≤ k ∧ env.identityCancelled k = true
            ∧ (startInformersHook s env fuel).resolveCalls = k
            ∧ ∀ j, j < k → env.resolveIdentities j ≠ none) := by
  refine ⟨?_, fun fuel e h => (identityPoll_err env fuel e h).1, ?_⟩
  · intro n fuel hn hf hfail hsucc hnc
    have hp := identityPoll_success env n hn hfail hsucc hnc fuel hf
    refine ⟨hp, fun hs => ?_⟩
    obtain ⟨h1, h2, -⟩ := (hook_identityPoll s env fuel).1 hs
    rw [hp] at h1 h2
    exact ⟨h1, h2 rfl⟩
  · intro fuel ha
    obtain ⟨⟨e, he⟩, hc, hr⟩ := (hook_identityPoll s env fuel).2 ha
    obtain ⟨-, h1, h2, h3⟩ := identityPoll_err env fuel e he
    exact ⟨hr, (identityPoll env fuel).calls, h1, h2, hc, h3⟩

/-- Witness for C12: `resolveIdentities` fails twice and succeeds at the third call, on
the root shard with every other collaborator succeeding. -/
theorem identity_loop_retries_until_success_witness :
    identityPoll thirdAttemptEnv 3 = ⟨3, .ok⟩
    ∧ (startInformersHook (serverWith true [] "root") thirdAttemptEnv 3).resolveCalls = 3
    ∧ Event.done .IdentityResolutionLoop
        ∈ (startInformersHook (serverWith true [] "root") thirdAttemptEnv 3).trace
    ∧ Event.start .SecondCacheSync
        ∈ (startInformersHook (serverWith true [] "root") thirdAttemptEnv 3).trace :=
  have h := (identity_loop_retries_until_success (serverWith true [] "root")
    thirdAttemptEnv).1 3 3 (by decide) (by decide)
    (by intro k hk; have : k < 2 := by omega
        simp [thirdAttemptEnv, this])
    (by decide) (fun _ _ _ => rfl)
  ⟨h.1, h.2 (by decide)⟩

/-! ## Routing of the composed handler -/

theorem listerAfter_append (l : ClusterAwareCRDLister) (a b : List ServerOp) :
    listerAfter l (a ++ b) = listerAfter (listerAfter l a) b := by
  induction a generalizing l with
  | nil => rfl
  | cons op r ih => cases op <;> simp [listerAfter, ih]

theorem serve_append (l : ClusterAwareCRDLister) (a b : List ServerOp) :
    serve l (a ++ b) = serve l a ++ serve (listerAfter l a) b := by
  induction a generalizing l with
  | nil => rfl
  | cons op r ih => cases op <;> simp [serve, listerAfter, ih]

theorem mem_listerAfter (l : ClusterAwareCRDLister) (ops : List ServerOp) (gv : GroupVersion) :
    gv ∈ listerAfter l ops ↔ gv ∈ l ∨ ServerOp.register gv ∈ ops := by
  induction ops generalizing l with
  | nil => simp [listerAfter]
  | cons op r ih =>
    cases op with
    | register g =>
      simp only [listerAfter, ih, List.mem_cons, ServerOp.register.injEq]
      constructor
      · rintro ((h | h) | h)
        · exact Or.inr (Or.inl h)
        · exact Or.inl h
        · exact Or.inr (Or.inr h)
      · rintro (h | h | h)
        · exact Or.inl (Or.inr h)
        · exact Or.inl (Or.inl h)
        · exact Or.inr h
    | request q => simp [listerAfter, ih]

/-- C13: the composed handler routes every request to exactly one delegate, with the
request unchanged: to the primary (extension-schema) delegate when that delegate owns the
request's group/version at the time of the request, to the secondary (built-in) delegate
otherwise. Ownership is read per request: while a sequence of operations is served, a
request is routed to the primary exactly when its group/version was owned at the start or
has been registered by an earlier operation. -/
theorem composed_handler_routes_by_ownership (l : ClusterAwareCRDLister) (req : Request) :
    (req.groupVersion ∈ l → mergeCRDsIntoCoreGroup l req = [(.primary, req)])
    ∧ (req.groupVersion ∉ l → mergeCRDsIntoCoreGroup l req = [(.secondary, req)])
    ∧ (∀ before after : List ServerOp,
        serve l (before ++ .request req :: after)
          = serve l before
            ++ (if req.groupVersion ∈ l ∨ ServerOp.register req.groupVersion ∈ before
                then (Delegate.primary, req) else (Delegate.secondary, req))
            :: serve (listerAfter l before) after) := by
  refine ⟨fun h => by simp [mergeCRDsIntoCoreGroup, h],
    fun h => by simp [mergeCRDsIntoCoreGroup, h], fun before after => ?_⟩
  rw [serve_append]
  simp only [serve, mergeCRDsIntoCoreGroup, mem_listerAfter]
  split <;> simp

/-- Witness for C13: group `G1` is not owned at first; a request for it goes to the
secondary, and after `G1` is registered the next request for it goes to the primary. -/
theorem composed_handler_routes_by_ownership_witness :
    serve [] [.request ⟨⟨"G1", "v1"⟩, "a"⟩, .register ⟨"G1", "v1"⟩,
        .request ⟨⟨"G1", "v1"⟩, "b"⟩, .request ⟨⟨"G2", "v1"⟩, "c"⟩]
      = [(.secondary, ⟨⟨"G1", "v1"⟩, "a"⟩), (.primary, ⟨⟨"G1", "v1"⟩, "b"⟩),
          (.secondary, ⟨⟨"G2", "v1"⟩, "c"⟩)] :=
  ((composed_handler_routes_by_ownership [] ⟨⟨"G1", "v1"⟩, "b"⟩).2.2
      [.request ⟨⟨"G1", "v1"⟩, "a"⟩, .register ⟨"G1", "v1"⟩]
      [.request ⟨⟨"G2", "v1"⟩, "c"⟩]).trans (by decide)

/-! ## Quota isolation -/

theorem createObject_other_cluster (st : QuotaStore) (o : ApiObject) (c : LogicalCluster)
    (h : o.cluster ≠ c) :
    (createObject st o).2.scopedTo c = st.scopedTo c
    ∧ (createObject st o).2.quotas = st.quotas := by
  unfold createObject
  split
  · exact ⟨rfl, rfl⟩
  · simp [QuotaStore.scopedTo, List.filter_cons, h]

theorem applyOps_other_cluster (c : LogicalCluster) (ops : List QuotaOp)
    (h : ∀ op ∈ ops, op.cluster ≠ c) :
    ∀ st : QuotaStore,
      (applyOps st ops).scopedTo c = st.scopedTo c
      ∧ (applyOps st ops).quotas.filter (fun q => q.cluster = c)
          = st.quotas.filter (fun q => q.cluster = c) := by
  induction ops with
  | nil => intro st; exact ⟨rfl, rfl⟩
  | cons op r ih =>
    intro st
    have hop : op.cluster ≠ c := h op (List.mem_cons_self _ _)
    have hr : ∀ op ∈ r, op.cluster ≠ c := fun x hx => h x (List.mem_cons_of_mem _ hx)
    cases op with
    | createObject o =>
      simp only [applyOps]
      obtain ⟨h1, h2⟩ := ih hr (createObject st o).2
      obtain ⟨h3, h4⟩ := createObject_other_cluster st o c hop
      exact ⟨h1.trans h3, by rw [h2, h4]⟩
    | createQuota q =>
      simp only [applyOps]
      obtain ⟨h1, h2⟩ := ih hr (createQuota st q)
      refine ⟨h1, ?_⟩
      rw [h2]
      have hq : q.cluster ≠ c := hop
      simp [createQuota, List.filter_cons, hq]

theorem used_congr (st₁ st₂ : QuotaStore) (c : LogicalCluster) (r : CountedResource)
    (h : st₁.scopedTo c = st₂.scopedTo c) : used st₁ c r = used st₂ c r := by
  simp [used, h]

theorem createObject_forbidden_iff (st : QuotaStore) (o : ApiObject) :
    (createObject st o).1 = .forbidden ↔
      ∃ q ∈ st.quotas.filter (fun q => q.cluster = o.cluster),
        q.resource = o.resource ∧ q.hard ≤ used st o.cluster o.resource := by
  unfold createObject
  split
  · rename_i h
    simp only [List.any_eq_true, decide_eq_true_eq] at h
    obtain ⟨q, hq, h1, h2, h3⟩ := h
    simp only [true_iff]
    exact ⟨q, by simp [hq, h1], h2, h3⟩
  · rename_i h
    simp only [List.any_eq_true, decide_eq_true_eq, not_exists, not_and] at h
    constructor
    · intro hc
      cases hc
    · rintro ⟨q, hq, h2, h3⟩
      simp only [List.mem_filter, decide_eq_true_eq] at hq
      exact (h q hq.1 hq.2 h2 h3).elim

theorem createObject_result_congr (st₁ st₂ : QuotaStore) (o : ApiObject)
    (hobj : st₁.scopedTo o.cluster = st₂.scopedTo o.cluster)
    (hq : st₁.quotas.filter (fun q => q.cluster = o.cluster)
        = st₂.quotas.filter (fun q => q.cluster = o.cluster)) :
    (createObject st₁ o).1 = (createObject st₂ o).1 := by
  have h1 := createObject_forbidden_iff st₁ o
  have h2 := createObject_forbidden_iff st₂ o
  rw [hq, used_congr st₁ st₂ o.cluster o.resource hobj] at h1
  have h3 : (createObject st₁ o).1 = .forbidden ↔ (createObject st₂ o).1 = .forbidden :=
    h1.trans h2.symm
  cases ha : (createObject st₁ o).1 <;> cases hb : (createObject st₂ o).1 <;> simp_all

/-- C14: quota accounting is isolated per logical cluster, for built-in and CRD-defined
resources alike. The used count of a resource in cluster `A` is the same in any two
stores that hold the same objects scoped to `A`; requests scoped to other clusters
(creating quotas there, filling them to their hard limit and beyond) leave the used
counts of `A` and the outcome of every create request in `A` unchanged; and a create
request in `A` is rejected as Forbidden exactly when a quota of `A` for that resource has
a hard limit that the used count of `A` has reached. -/
theorem quota_isolated_per_cluster (st : QuotaStore) (A : LogicalCluster)
    (r : CountedResource) :
    (∀ st₂ : QuotaStore, st.scopedTo A = st₂.scopedTo A → used st A r = used st₂ A r)
    ∧ (∀ ops : List QuotaOp, (∀ op ∈ ops, op.cluster ≠ A) →
        used (applyOps st ops) A r = used st A r
        ∧ ∀ o : ApiObject, o.cluster = A →
            (createObject (applyOps st ops) o).1 = (createObject st o).1)
    ∧ (∀ o : ApiObject, o.cluster = A → o.resource = r →
        ((createObject st o).1 = .forbidden ↔
          ∃ q ∈ st.quotas, q.cluster = A ∧ q.resource = r ∧ q.hard ≤ used st A r)) := by
  refine ⟨fun st₂ h => used_congr st st₂ A r h, fun ops hops => ?_, fun o hA hr => ?_⟩
  · obtain ⟨h1, h2⟩ := applyOps_other_cluster A ops hops st
    refine ⟨used_congr _ _ A r h1, fun o hA => ?_⟩
    subst hA
    exact createObject_result_congr _ _ o h1 h2
  · subst hA hr
    rw [createObject_forbidden_iff]
    simp only [List.mem_filter, decide_eq_true_eq]
    constructor
    · rintro ⟨q, ⟨h1, h2⟩, h3, h4⟩
      exact ⟨q, h1, h2, h3, h4⟩
    · rintro ⟨q, h1, h2, h3, h4⟩
      exact ⟨q, ⟨h1, h2⟩, h3, h4⟩

/-- Witness for C14: workspace `B` is given the quota of two configmaps and filled beyond
it; workspace `A`, with the same quota and one configmap, still shows one used and still
accepts a second configmap, and rejects a third. -/
theorem quota_isolated_per_cluster_witness :
    used (applyOps ⟨[⟨"A", ⟨"count/configmaps", false⟩, "kube-root-ca.crt"⟩],
            [quotaOfTwo "A" ⟨"count/configmaps", false⟩]⟩
          (fillCluster "B" ⟨"count/configmaps", false⟩))
        "A" ⟨"count/configmaps", false⟩ = 1
    ∧ used (applyOps ⟨[], []⟩ (fillCluster "B" ⟨"count/configmaps", false⟩))
        "B" ⟨"count/configmaps", false⟩ = 2
    ∧ (createObject
          (applyOps ⟨[⟨"A", ⟨"count/configmaps", false⟩, "kube-root-ca.crt"⟩],
              [quotaOfTwo "A" ⟨"count/configmaps", false⟩]⟩
            (fillCluster "B" ⟨"count/configmaps", false⟩))
          ⟨"A", ⟨"count/configmaps", false⟩, "quota-1"⟩).1 = .created
    ∧ (createObject
          ⟨[⟨"A", ⟨"count/configmaps", false⟩, "quota-1"⟩,
              ⟨"A", ⟨"count/configmaps", false⟩, "kube-root-ca.crt"⟩],
            [quotaOfTwo "A" ⟨"count/configmaps", false⟩]⟩
          ⟨"A", ⟨"count/configmaps", false⟩, "quota-2"⟩).1 = .forbidden :=
  have h := (quota_isolated_per_cluster
    ⟨[⟨"A", ⟨"count/configmaps", false⟩, "kube-root-ca.crt"⟩],
      [quotaOfTwo "A" ⟨"count/configmaps", false⟩]⟩ "A" ⟨"count/configmaps", false⟩).2.1
    (fillCluster "B" ⟨"count/configmaps", false⟩) (by decide)
  ⟨h.1.trans (by decide), by decide,
    (h.2 ⟨"A", ⟨"count/configmaps", false⟩, "quota-1"⟩ rfl).trans (by decide), by decide⟩

/-! ## Unrecognised controller names -/

theorem hookTail_congr (s₁ s₂ : Server) (env : HookEnv) (fuel : Nat) (t : List Event) (n : Nat)
    (hshard : s₁.CompletedConfig.Options.Extra.ShardName
      = s₂.CompletedConfig.Options.Extra.ShardName)
    (hch : s₁.syncedCh = s₂.syncedCh) :
    startInformersHookTail s₁ env fuel t n = startInformersHookTail s₂ env fuel t n := by
  unfold startInformersHookTail
  simp only [hshard, hch]

theorem hook_congr (s₁ s₂ : Server) (env : HookEnv) (fuel : Nat)
    (hshard : s₁.CompletedConfig.Options.Extra.ShardName
      = s₂.CompletedConfig.Options.Extra.ShardName)
    (hch : s₁.syncedCh = s₂.syncedCh) :
    startInformersHook s₁ env fuel = startInformersHook s₂ env fuel := by
  unfold startInformersHook
  simp only [hshard, hch, hookTail_congr s₁ s₂ env fuel _ _ hshard hch]

theorem plan_congr (s₁ s₂ : Server) (w : World)
    (hall : s₁.CompletedConfig.Options.Controllers.EnableAll
      = s₂.CompletedConfig.Options.Controllers.EnableAll)
    (hnames : ∀ g : Group,
      (g.name ∈ s₁.CompletedConfig.Options.Controllers.IndividuallyEnabled
        ↔ g.name ∈ s₂.CompletedConfig.Options.Controllers.IndividuallyEnabled))
    (hhome : s₁.CompletedConfig.Options.HomeWorkspaces
      = s₂.CompletedConfig.Options.HomeWorkspaces)
    (hvirt : s₁.CompletedConfig.Options.Virtual = s₂.CompletedConfig.Options.Virtual) :
    plan s₁ w = plan s₂ w := by
  have hc : ∀ g : Group,
      s₁.CompletedConfig.Options.Controllers.IndividuallyEnabled.contains g.name
        = s₂.CompletedConfig.Options.Controllers.IndividuallyEnabled.contains g.name := by
    intro g
    have := hnames g
    rw [Bool.eq_iff_iff]
    simpa using this
  have h1 := hc .cluster
  have h2 := hc .workspaceScheduler
  have h3 := hc .resourceScheduler
  have h4 := hc .apibinding
  have h5 := hc .apiexport
  have h6 := hc .scheduling
  have h7 := hc .quota
  simp only [Group.name] at h1 h2 h3 h4 h5 h6 h7
  unfold plan
  rw [hall, h1, h2, h3, h4, h5, h6, h7, hhome, hvirt]

theorem Run_result_is_step_error (s : Server) (w : World) (e : Err)
    (h : (s.Run w).result = some e) :
    ∃ st, Event.call st ∈ (s.Run w).trace ∧ w.outcome st = some e := by
  rw [Run_eq] at h ⊢
  unfold runSpec at h ⊢
  cases hf : firstError w.outcome (plan s w) with
  | some e2 =>
    simp only [hf, Option.some.injEq] at h ⊢
    subst h
    have : ∀ l : List Step, firstError w.outcome l = some e2 →
        ∃ st, st ∈ invoked w.outcome l ∧ w.outcome st = some e2 := by
      intro l
      induction l with
      | nil => intro h; simp [firstError] at h
      | cons x r ih =>
        intro h
        cases hx : w.outcome x with
        | some e3 =>
          simp only [firstError, hx, Option.some.injEq] at h
          subst h
          exact ⟨x, by simp [invoked, hx], hx⟩
        | none =>
          simp only [firstError, hx] at h
          obtain ⟨st, h1, h2⟩ := ih h
          exact ⟨st, by simp [invoked, hx, h1], h2⟩
    obtain ⟨st, h1, h2⟩ := this _ hf
    exact ⟨st, by simp [h1], h2⟩
  | none =>
    simp only [hf] at h ⊢
    exact ⟨.PrepareRun, by simp, h⟩

/-- C15: names in `IndividuallyEnabled` other than the seven recognised group names
have no effect on `Run`. Two servers whose configurations agree on `EnableAll`, on the
membership of each of the seven recognised names, and on every other option (and whose
gates are in the same state, as after `NewServer`) make, in any one world, the same
calls in the same order, run the bootstrap hook alike and return the same result. And an
error returned by `Run` is always the error of a call it made, never one caused by a
name. -/
theorem unrecognised_names_have_no_effect (s₁ s₂ : Server) (w : World)
    (hall : s₁.CompletedConfig.Options.Controllers.EnableAll
      = s₂.CompletedConfig.Options.Controllers.EnableAll)
    (hnames : ∀ g : Group,
      (g.name ∈ s₁.CompletedConfig.Options.Controllers.IndividuallyEnabled
        ↔ g.name ∈ s₂.CompletedConfig.Options.Controllers.IndividuallyEnabled))
    (hhome : s₁.CompletedConfig.Options.HomeWorkspaces
      = s₂.CompletedConfig.Options.HomeWorkspaces)
    (hvirt : s₁.CompletedConfig.Options.Virtual = s₂.CompletedConfig.Options.Virtual)
    (hextra : s₁.CompletedConfig.Options.Extra = s₂.CompletedConfig.Options.Extra)
    (hch : s₁.syncedCh = s₂.syncedCh) :
    (s₁.Run w).trace = (s₂.Run w).trace
    ∧ (s₁.Run w).bootstrap = (s₂.Run w).bootstrap
    ∧ (s₁.Run w).result = (s₂.Run w).result
    ∧ (∀ e, (s₁.Run w).result = some e →
        ∃ st, Event.call st ∈ (s₁.Run w).trace ∧ w.outcome st = some e) := by
  have hp := plan_congr s₁ s₂ w hall hnames hhome hvirt
  have hh := hook_congr s₁ s₂ w.hookEnv w.fuel (by rw [hextra]) hch
  have hr : s₁.Run w = s₂.Run w := by
    rw [Run_eq, Run_eq]
    unfold runSpec
    rw [hp, hh]
  exact ⟨by rw [hr], by rw [hr], by rw [hr], fun e h => Run_result_is_step_error s₁ w e h⟩

/-- Witness for C15: `IndividuallyEnabled = ["bogus", "quota", "other"]` against
`["quota"]`, in a world where `installKubeQuotaController` fails. -/
theorem unrecognised_names_have_no_effect_witness :
    ((serverWith false ["bogus", "quota", "other"] "root").Run
        (failingWorld .installKubeQuotaController)).trace
      = ((serverWith false ["quota"] "root").Run
          (failingWorld .installKubeQuotaController)).trace
    ∧ ((serverWith false ["bogus", "quota", "other"] "root").Run
        (failingWorld .installKubeQuotaController)).result = some "boom" :=
  have h := unrecognised_names_have_no_effect
    (serverWith false ["bogus", "quota", "other"] "root") (serverWith false ["quota"] "root")
    (failingWorld .installKubeQuotaController) rfl (by intro g; cases g <;> decide) rfl rfl rfl
    rfl
  ⟨h.1, h.2.2.1.trans (by decide)⟩

/-! ## The trace of the hook, from the outcomes of its phases -/

theorem hookTail_trace_eq (s : Server) (env : HookEnv) (fuel : Nat) (t : List Event)
    (n : Nat) :
    (startInformersHookTail s env fuel t n).trace
      = t ++ expectedTrace (phaseOutcome s env fuel)
          ([.IdentityResolutionLoop, .SecondCacheSync, .MarkReady]
            ++ (if s.isRoot then [.RootPhase1] else [])) := by
  unfold startInformersHookTail
  simp only []
  split
  · rename_i heq
    have hq : (identityPoll env fuel).result = .pending := heq
    simp [expectedTrace, phaseOutcome, hq, PollResult.toPhaseOutcome]
  · rename_i e heq
    have hq : (identityPoll env fuel).result = .err e := heq
    simp [expectedTrace, phaseOutcome, hq, PollResult.toPhaseOutcome]
  · rename_i heq
    have hq : (identityPoll env fuel).result = .ok := heq
    clear heq
    repeat' split
    all_goals simp_all [expectedTrace, phaseOutcome, PollResult.toPhaseOutcome, Server.isRoot]

/-- The trace of every run of the hook is the expected one: the phases are gone through
in the fixed order and the run ends at the first phase that does not succeed. -/
theorem hook_trace_eq (s : Server) (env : HookEnv) (fuel : Nat) :
    (startInformersHook s env fuel).trace
      = expectedTrace (phaseOutcome s env fuel) (phaseOrder s.isRoot) := by
  unfold startInformersHook
  simp only []
  repeat' split
  all_goals first
    | (rw [hookTail_trace_eq]
       simp_all [expectedTrace, phaseOutcome, PollResult.toPhaseOutcome, Server.isRoot,
         phaseOrder, readinessPoll])
    | simp_all [expectedTrace, phaseOutcome, PollResult.toPhaseOutcome, Server.isRoot,
        phaseOrder, readinessPoll]

theorem started_expectedTrace (out : Phase → PhaseOutcome) (l : List Phase) :
    started (expectedTrace out l) = ranPhases out l := by
  induction l with
  | nil => rfl
  | cons p r ih =>
    cases h : out p
    · simp only [expectedTrace, ranPhases, h]
      simpa [started, Event.startOf] using ih
    · simp [expectedTrace, ranPhases, h, started, Event.startOf]
    · simp [expectedTrace, ranPhases, h, started, Event.startOf]

theorem hook_gate_unchanged (s : Server) (env : HookEnv) (fuel : Nat)
    (h : Event.done .MarkReady ∉ (startInformersHook s env fuel).trace) :
    (startInformersHook s env fuel).syncedCh = s.syncedCh := by
  revert h
  unfold startInformersHook startInformersHookTail
  simp only []
  repeat' split
  all_goals simp_all

theorem hook_polling_last (s : Server) (env : HookEnv) (fuel : Nat) :
    (startInformersHook s env fuel).result = .polling ↔
      ∃ p, (startInformersHook s env fuel).trace.getLast? = some (.start p) := by
  unfold startInformersHook startInformersHookTail
  simp only []
  repeat' split
  all_goals simp_all

theorem expectedTrace_last_start (out : Phase → PhaseOutcome) (l : List Phase) (p : Phase)
    (h : (expectedTrace out l).getLast? = some (.start p)) : out p = .pending := by
  induction l with
  | nil => simp [expectedTrace] at h
  | cons q r ih =>
    cases hq : out q with
    | succeeded =>
      simp only [expectedTrace, hq] at h
      cases hr : expectedTrace out r with
      | nil => simp [hr] at h
      | cons x xs =>
        rw [hr] at h ih
        apply ih
        simpa [List.getLast?_cons_cons] using h
    | failed => simp [expectedTrace, hq] at h
    | pending =>
      simp only [expectedTrace, hq, List.getLast?_singleton, Option.some.injEq,
        Event.start.injEq] at h
      rw [← h]
      exact hq

theorem expectedTrace_abort_last (out : Phase → PhaseOutcome) (l : List Phase) (p : Phase)
    (hs : Event.start p ∈ expectedTrace out l) (hf : out p = .failed) :
    Event.abort p ∈ expectedTrace out l
    ∧ (expectedTrace out l).getLast? = some (.abort p) := by
  induction l with
  | nil => simp [expectedTrace] at hs
  | cons q r ih =>
    cases hq : out q with
    | succeeded =>
      simp only [expectedTrace, hq, List.mem_cons, Event.start.injEq] at hs ⊢
      rcases hs with h | h | h
      · subst h
        rw [hq] at hf
        cases hf
      · cases h
      · obtain ⟨h1, h2⟩ := ih h
        refine ⟨Or.inr (Or.inr h1), ?_⟩
        cases hr : expectedTrace out r with
        | nil => simp [hr] at h
        | cons x xs =>
          rw [hr] at h2
          simpa [List.getLast?_cons_cons] using h2
    | failed =>
      simp only [expectedTrace, hq, List.mem_cons, Event.start.injEq, List.not_mem_nil,
        or_false] at hs ⊢
      rcases hs with h | h
      · subst h
        simp
      · cases h
    | pending =>
      simp only [expectedTrace, hq, List.mem_singleton, Event.start.injEq] at hs
      subst hs
      rw [hq] at hf
      cases hf

theorem expectedTrace_done_MarkReady (out : Phase → PhaseOutcome) (root : Bool) (p : Phase)
    (hp : p ∈ phaseOrder root) (hne : p ≠ .RootPhase1) (hf : out p = .failed) :
    Event.done .MarkReady ∉ expectedTrace out (phaseOrder root) := by
  cases root <;>
    simp only [phaseOrder, if_true, if_false, Bool.false_eq_true, List.cons_append,
      List.nil_append, List.append_nil, List.mem_cons, List.mem_singleton, List.not_mem_nil,
      or_false] at hp ⊢ <;>
    (try casesm* _ ∨ _) <;> subst_vars <;>
    simp only [expectedTrace] <;>
    (repeat' split) <;> simp_all

theorem expectedTrace_start_of_others (out : Phase → PhaseOutcome) (root : Bool) (p : Phase)
    (hp : p ∈ phaseOrder root)
    (hothers : ∀ q ∈ phaseOrder root, q ≠ p → out q = .succeeded) :
    Event.start p ∈ expectedTrace out (phaseOrder root) := by
  cases root <;>
    simp only [phaseOrder, if_true, if_false, Bool.false_eq_true, List.cons_append,
      List.nil_append, List.append_nil, List.mem_cons, List.mem_singleton, List.not_mem_nil,
      or_false, forall_eq_or_imp, forall_eq] at hp hothers ⊢ <;>
    (try casesm* _ ∨ _) <;> subst_vars <;>
    simp only [expectedTrace] <;>
    (repeat' split) <;> simp_all

theorem mem_expectedTrace_done (out : Phase → PhaseOutcome) (l : List Phase) (p : Phase) :
    Event.done p ∈ expectedTrace out l ↔ p ∈ ranPhases out l ∧ out p = .succeeded := by
  induction l with
  | nil => simp [expectedTrace, ranPhases]
  | cons q r ih =>
    cases hq : out q with
    | succeeded =>
      simp only [expectedTrace, ranPhases, hq, List.mem_cons, Event.done.injEq, ih]
      constructor
      · rintro (h | h | h)
        · cases h
        · subst h
          exact ⟨Or.inl rfl, hq⟩
        · exact ⟨Or.inr h.1, h.2⟩
      · rintro ⟨h | h, h2⟩
        · exact Or.inr (Or.inl h)
        · exact Or.inr (Or.inr ⟨h, h2⟩)
    | failed =>
      simp only [expectedTrace, ranPhases, hq, List.mem_cons, List.mem_singleton,
        List.not_mem_nil, or_false]
      constructor
      · rintro (h | h) <;> cases h
      · rintro ⟨h, h2⟩
        subst h
        rw [hq] at h2
        cases h2
    | pending =>
      simp only [expectedTrace, ranPhases, hq, List.mem_singleton]
      constructor
      · intro h
        cases h
      · rintro ⟨h, h2⟩
        subst h
        rw [hq] at h2
        cases h2

theorem mem_expectedTrace_abort (out : Phase → PhaseOutcome) (l : List Phase) (p : Phase) :
    Event.abort p ∈ expectedTrace out l ↔ p ∈ ranPhases out l ∧ out p = .failed := by
  induction l with
  | nil => simp [expectedTrace, ranPhases]
  | cons q r ih =>
    cases hq : out q with
    | succeeded =>
      simp only [expectedTrace, ranPhases, hq, List.mem_cons, ih]
      constructor
      · rintro (h | h | h)
        · cases h
        · cases h
        · exact ⟨Or.inr h.1, h.2⟩
      · rintro ⟨h | h, h2⟩
        · subst h
          rw [hq] at h2
          cases h2
        · exact Or.inr (Or.inr ⟨h, h2⟩)
    | failed =>
      simp only [expectedTrace, ranPhases, hq, List.mem_cons, List.mem_singleton,
        List.not_mem_nil, or_false, Event.abort.injEq]
      constructor
      · rintro (h | h)
        · cases h
        · subst h
          exact ⟨rfl, hq⟩
      · rintro ⟨h, -⟩
        exact Or.inr h
    | pending =>
      simp only [expectedTrace, ranPhases, hq, List.mem_singleton]
      constructor
      · intro h
        cases h
      · rintro ⟨h, h2⟩
        subst h
        rw [hq] at h2
        cases h2

theorem hook_polling_pending (s : Server) (env : HookEnv) (fuel : Nat)
    (h : (startInformersHook s env fuel).result = .polling) :
    ∃ p ∈ started (startInformersHook s env fuel).trace,
      phaseOutcome s env fuel p = .pending := by
  obtain ⟨p, hp⟩ := (hook_polling_last s env fuel).mp h
  refine ⟨p, ?_, ?_⟩
  · have hm : Event.start p ∈ (startInformersHook s env fuel).trace :=
      List.mem_of_getLast?_eq_some hp
    simp only [started, List.mem_filterMap]
    exact ⟨.start p, hm, rfl⟩
  · rw [hook_trace_eq] at hp
    exact expectedTrace_last_start _ _ p hp

/-- C3: every run of the `kcp-start-informers` hook records exactly the trace of going
through the fixed order of phases (root phases on the root shard only) and ending at the
first phase that does not succeed, where whether a phase succeeds is what its
collaborator does in that run (the stop channel at the two cache-sync waits, the result
of the bootstrap call, the poll). So the phases that start are exactly that phase and
those before it; a started phase completes iff its collaborator succeeds and aborts iff
it fails; a run still polling has a pending poll. Hence the phases that start form a
prefix of the fixed order, a phase starts only after every phase started before it has
completed, and an abort is the last event of the run. In particular, when the stop
channel is closed as the first cache-sync wait returns only `InfrastructureCacheSync` has
started, when it is closed as the second wait returns neither `MarkReady` nor `RootPhase1`
starts, and in both cases `syncedCh` is left as it was. -/
theorem hook_phases_prefix_of_order (s : Server) (env : HookEnv) (fuel : Nat) :
    (startInformersHook s env fuel).trace
        = expectedTrace (phaseOutcome s env fuel) (phaseOrder s.isRoot)
    ∧ started (startInformersHook s env fuel).trace
        = ranPhases (phaseOutcome s env fuel) (phaseOrder s.isRoot)
    ∧ (∀ p ∈ started (startInformersHook s env fuel).trace,
        (Event.done p ∈ (startInformersHook s env fuel).trace
          ↔ phaseOutcome s env fuel p = .succeeded)
        ∧ (Event.abort p ∈ (startInformersHook s env fuel).trace
          ↔ phaseOutcome s env fuel p = .failed))
    ∧ ((startInformersHook s env fuel).result = .polling →
        ∃ p ∈ started (startInformersHook s env fuel).trace,
          phaseOutcome s env fuel p = .pending)
    ∧ started (startInformersHook s env fuel).trace <+: phaseOrder s.isRoot
    ∧ (∀ pre p post, (startInformersHook s env fuel).trace = pre ++ Event.start p :: post →
        ∀ q ∈ started pre, Event.done q ∈ pre)
    ∧ (∀ p, Event.abort p ∈ (startInformersHook s env fuel).trace →
        (startInformersHook s env fuel).trace.getLast? = some (.abort p)
        ∧ (started (startInformersHook s env fuel).trace).getLast? = some p)
    ∧ ((startInformersHook s env fuel).result = .polling
        ∨ (∃ p, (startInformersHook s env fuel).trace.getLast? = some (.abort p))
        ∨ (started (startInformersHook s env fuel).trace = phaseOrder s.isRoot
            ∧ ∀ q ∈ phaseOrder s.isRoot,
                Event.done q ∈ (startInformersHook s env fuel).trace))
    ∧ (env.stopAfterFirstSync = true →
        started (startInformersHook s env fuel).trace = [.InfrastructureCacheSync]
        ∧ (startInformersHook s env fuel).syncedCh = s.syncedCh)
    ∧ (env.stopAfterSecondSync = true →
        Phase.MarkReady ∉ started (startInformersHook s env fuel).trace
        ∧ Phase.RootPhase1 ∉ started (startInformersHook s env fuel).trace
        ∧ (startInformersHook s env fuel).syncedCh = s.syncedCh) := by
  have hst : started (startInformersHook s env fuel).trace
      = ranPhases (phaseOutcome s env fuel) (phaseOrder s.isRoot) := by
    rw [hook_trace_eq, started_expectedTrace]
  refine ⟨hook_trace_eq s env fuel, hst, ?_, hook_polling_pending s env fuel,
    hook_started_in_order s env fuel,
    fun pre p post h => hook_start_after_done s env fuel pre (.start p) post h p rfl,
    fun p h => hook_abort_last s env fuel p h,
    hook_ends s env fuel,
    hook_stop_first s env fuel,
    hook_stop_second s env fuel⟩
  intro p hp
  rw [hst] at hp
  constructor
  · rw [hook_trace_eq, mem_expectedTrace_done]
    exact ⟨fun h => h.2, fun h => ⟨hp, h⟩⟩
  · rw [hook_trace_eq, mem_expectedTrace_abort]
    exact ⟨fun h => h.2, fun h => ⟨hp, h⟩⟩

/-- Witness for C3: on the root shard `systemcrds.Bootstrap` fails; the run starts the
first two phases and no other, and the second one aborts. -/
theorem hook_phases_prefix_of_order_witness :
    phaseOutcome (serverWith true [] "root") systemcrdsFailsEnv 2 .SystemSchemaBootstrap
        = .failed
    ∧ started (startInformersHook (serverWith true [] "root") systemcrdsFailsEnv 2).trace
        = [.InfrastructureCacheSync, .SystemSchemaBootstrap]
    ∧ Event.abort .SystemSchemaBootstrap
        ∈ (startInformersHook (serverWith true [] "root") systemcrdsFailsEnv 2).trace :=
  ⟨by decide,
    (hook_phases_prefix_of_order (serverWith true [] "root") systemcrdsFailsEnv 2).2.1.trans
      (by decide),
    ((hook_phases_prefix_of_order (serverWith true [] "root") systemcrdsFailsEnv 2).2.2.1
      .SystemSchemaBootstrap (by decide)).2.mpr (by decide)⟩

/-- C6, amended: for every phase of the fixed order other than `RootPhase1` (among them
`SystemSchemaBootstrap`, `ShardWorkspaceBootstrap`, `PollForMinimalReadiness`,
`RootPhase0`, `IdentityResolutionLoop`, `SecondCacheSync`) and every run in which the
collaborator of that phase fails, `MarkReady` is not completed in that run and `syncedCh`
is left as it was. A failing phase that runs (as it does when every other phase succeeds)
aborts the run. `RootPhase1` runs after `MarkReady`: in a run in which it runs and fails,
the gate has already been closed. -/
theorem failed_phase_and_gate (s : Server) (env : HookEnv) (fuel : Nat) (p : Phase)
    (hp : p ∈ phaseOrder s.isRoot) (hfail : phaseOutcome s env fuel p = .failed) :
    (p ≠ .RootPhase1 →
        Event.done .MarkReady ∉ (startInformersHook s env fuel).trace
        ∧ (startInformersHook s env fuel).syncedCh = s.syncedCh)
    ∧ ((∀ q ∈ phaseOrder s.isRoot, q ≠ p → phaseOutcome s env fuel q = .succeeded) →
        Event.start p ∈ (startInformersHook s env fuel).trace)
    ∧ (Event.start p ∈ (startInformersHook s env fuel).trace →
        Event.abort p ∈ (startInformersHook s env fuel).trace
        ∧ (startInformersHook s env fuel).trace.getLast? = some (.abort p))
    ∧ (p = .RootPhase1 → Event.start p ∈ (startInformersHook s env fuel).trace →
        Event.done .MarkReady ∈ (startInformersHook s env fuel).trace
        ∧ s.syncedCh = .isOpen
        ∧ (startInformersHook s env fuel).syncedCh = .closed) := by
  refine ⟨fun hne => ?_, fun hothers => ?_, fun hs => ?_, fun heq hs => ?_⟩
  · have hd : Event.done .MarkReady ∉ (startInformersHook s env fuel).trace := by
      rw [hook_trace_eq]
      exact expectedTrace_done_MarkReady _ _ p hp hne hfail
    exact ⟨hd, hook_gate_unchanged s env fuel hd⟩
  · rw [hook_trace_eq]
    exact expectedTrace_start_of_others _ _ p hp hothers
  · rw [hook_trace_eq] at hs ⊢
    exact expectedTrace_abort_last _ _ p hs hfail
  · subst heq
    have hd := ((hook_root_phase_starts s env fuel).2.mp hs).2
    obtain ⟨h1, h2⟩ := hook_fired_closed s env fuel hd
    exact ⟨hd, h2, h1⟩

/-- Witness for C6: on the root shard `configrootphase0.Bootstrap` fails and every other
collaborator succeeds. -/
theorem failed_phase_and_gate_witness :
    Phase.RootPhase0 ∈ phaseOrder (serverWith true [] "root").isRoot
    ∧ phaseOutcome (serverWith true [] "root") phase0FailsEnv 2 .RootPhase0 = .failed
    ∧ Event.done .MarkReady
        ∉ (startInformersHook (serverWith true [] "root") phase0FailsEnv 2).trace
    ∧ (startInformersHook (serverWith true [] "root") phase0FailsEnv 2).syncedCh
        = (serverWith true [] "root").syncedCh
    ∧ Event.abort .RootPhase0
        ∈ (startInformersHook (serverWith true [] "root") phase0FailsEnv 2).trace :=
  ⟨by decide, by decide,
    ((failed_phase_and_gate (serverWith true [] "root") phase0FailsEnv 2 .RootPhase0
      (by decide) (by decide)).1 (by decide)).1,
    ((failed_phase_and_gate (serverWith true [] "root") phase0FailsEnv 2 .RootPhase0
      (by decide) (by decide)).1 (by decide)).2,
    ((failed_phase_and_gate (serverWith true [] "root") phase0FailsEnv 2 .RootPhase0
      (by decide) (by decide)).2.2.1 (by decide)).1⟩

/-! ## The installs of the quota-only configuration -/

/-- C8, amended: with `EnableAll = false`, `IndividuallyEnabled` holding exactly
`"quota"`, and the hook registrations and every install succeeding,
`installKubeQuotaController` is invoked and is the only install function of a named
controller group that `Run` invokes. The install functions `Run` invokes in this
configuration are exactly: the five unconditional ones (`installKubeNamespaceController`,
`installClusterRoleAggregationController`, `installKubeServiceAccountController`,
`installKubeServiceAccountTokenController`, `installRootCAConfigMapController`),
`installHomeWorkspaces` when `Options.HomeWorkspaces.Enabled` holds,
`installKubeQuotaController`, and `installVirtualWorkspaces` when `Options.Virtual.Enabled`
holds, `installVirtualWorkspacesRedirect` otherwise. -/
theorem quota_only_group_install (s : Server) (w : World)
    (hall : s.CompletedConfig.Options.Controllers.EnableAll = false)
    (hq : ∀ n, n ∈ s.CompletedConfig.Options.Controllers.IndividuallyEnabled ↔ n = "quota")
    (hreg : ∀ h, w.outcome (.AddPostStartHook h) = none)
    (hok : ∀ t, t.isInstall = true → w.outcome t = none) :
    Event.call .installKubeQuotaController ∈ (s.Run w).trace
    ∧ (∀ (g : Group) (st : Step), st ∈ g.installs → Event.call st ∈ (s.Run w).trace →
        st = .installKubeQuotaController)
    ∧ (∀ st : Step, st.isInstall = true →
        (Event.call st ∈ (s.Run w).trace ↔
          st ∈ [Step.installKubeNamespaceController, .installClusterRoleAggregationController,
                .installKubeServiceAccountController,
                .installKubeServiceAccountTokenController, .installRootCAConfigMapController]
              ++ (if s.CompletedConfig.Options.HomeWorkspaces.Enabled then
                    [Step.installHomeWorkspaces] else [])
              ++ [Step.installKubeQuotaController]
              ++ [if s.CompletedConfig.Options.Virtual.Enabled then
                    Step.installVirtualWorkspaces
                  else Step.installVirtualWorkspacesRedirect])) := by
  refine ⟨?_, ?_, ?_⟩
  · rw [install_invoked_iff_mem_plan s w hreg hok _ (by decide),
      mem_plan_group_iff s w .quota _ (by decide)]
    simp [Group.name, Group.featureGate, hq]
  · intro g st hst hc
    rw [install_invoked_iff_mem_plan s w hreg hok _ (group_install_isInstall g st hst),
      mem_plan_group_iff s w g st hst] at hc
    obtain ⟨hen, -⟩ := hc
    rw [hall, hq] at hen
    cases g <;> simp [Group.name] at hen
    simpa [Group.installs] using hst
  · intro st hst
    rw [install_invoked_iff_mem_plan s w hreg hok st hst]
    have hc : ∀ n : String,
        s.CompletedConfig.Options.Controllers.IndividuallyEnabled.contains n
          = decide (n = "quota") := by
      intro n
      rw [Bool.eq_iff_iff]
      simpa using hq n
    unfold plan
    simp only [hall, hc, Bool.false_or]
    cases s.CompletedConfig.Options.HomeWorkspaces.Enabled <;>
      cases s.CompletedConfig.Options.Virtual.Enabled <;>
      cases w.LocationAPI <;>
      cases st <;> simp [Step.isInstall] at hst ⊢

/-- Witness for C8: the server with `IndividuallyEnabled = ["quota"]`, home workspaces
and virtual workspaces disabled, in a world where every call succeeds, calls the quota
install, `installRootCAConfigMapController` and `installVirtualWorkspacesRedirect`, and
neither the first install of the cluster group nor `installHomeWorkspaces`. -/
theorem quota_only_group_install_witness :
    (serverWith false ["quota"] "root").CompletedConfig.Options.Controllers.EnableAll = false
    ∧ Event.call .installKubeQuotaController
        ∈ ((serverWith false ["quota"] "root").Run (quietWorld true)).trace
    ∧ Event.call .installApiResourceController
        ∉ ((serverWith false ["quota"] "root").Run (quietWorld true)).trace
    ∧ Event.call .installRootCAConfigMapController
        ∈ ((serverWith false ["quota"] "root").Run (quietWorld true)).trace
    ∧ Event.call .installVirtualWorkspacesRedirect
        ∈ ((serverWith false ["quota"] "root").Run (quietWorld true)).trace
    ∧ Event.call .installHomeWorkspaces
        ∉ ((serverWith false ["quota"] "root").Run (quietWorld true)).trace :=
  have h := quota_only_group_install (serverWith false ["quota"] "root") (quietWorld true) rfl
    (by intro n; simp [serverWith, configWith]) (fun _ => rfl) (fun _ _ => rfl)
  ⟨rfl, h.1,
    fun hc => absurd (h.2.1 .cluster .installApiResourceController (by decide) hc) (by decide),
    (h.2.2 .installRootCAConfigMapController rfl).mpr (by decide),
    (h.2.2 .installVirtualWorkspacesRedirect rfl).mpr (by decide),
    fun hc => absurd ((h.2.2 .installHomeWorkspaces rfl).mp hc) (by decide)⟩

/-! ## Root phases start only after the watchers are observed as synced -/

theorem WaitFor_ok_observed (cancelled : Nat → Bool) (cond : Nat → Bool × Option Err) :
    ∀ fuel i, (WaitForWithContext cancelled cond fuel i).result = .ok →
      ∃ n, cond n = (true, none) := by
  intro fuel
  induction fuel with
  | zero =>
    intro i h
    simp [WaitForWithContext] at h
  | succ f ih =>
    intro i h
    rw [WaitForWithContext] at h
    by_cases hc : cancelled i = true
    · simp [hc] at h
    · simp only [hc, Bool.false_eq_true, if_false] at h
      rcases hcond : cond i with ⟨b, e⟩
      rw [hcond] at h
      cases e with
      | some e => simp at h
      | none =>
        cases b with
        | true => exact ⟨i, hcond⟩
        | false => exact ih (i + 1) h

theorem readinessPoll_ok_observed (env : HookEnv) (fuel : Nat)
    (h : (readinessPoll env fuel).result = .ok) : ∃ n, env.hasSynced n = (true, true) := by
  obtain ⟨n, hn⟩ := WaitFor_ok_observed _ _ fuel 0 h
  refine ⟨n, ?_⟩
  simp only [Prod.mk.injEq, Bool.and_eq_true, and_true] at hn
  exact Prod.ext hn.1 hn.2

theorem expectedTrace_start_root (out : Phase → PhaseOutcome) (root : Bool) :
    (Event.start .RootPhase0 ∈ expectedTrace out (phaseOrder root) →
      out .PollForMinimalReadiness = .succeeded)
    ∧ (Event.start .RootPhase1 ∈ expectedTrace out (phaseOrder root) →
      out .PollForMinimalReadiness = .succeeded ∧ out .RootPhase0 = .succeeded) := by
  cases root <;>
    simp only [phaseOrder, if_true, if_false, Bool.false_eq_true, List.cons_append,
      List.nil_append, List.append_nil, expectedTrace] <;>
    constructor <;> (repeat' split) <;> simp_all

/-- A root phase starts only in a run in which the readiness poll really succeeded, that
is, in which both informers reported `HasSynced` in some round; `RootPhase1` starts only
if moreover `configrootphase0.Bootstrap` returned no error. -/
theorem hook_root_start_observed (s : Server) (env : HookEnv) (fuel : Nat) :
    (Event.start .RootPhase0 ∈ (startInformersHook s env fuel).trace →
      (readinessPoll env fuel).result = .ok ∧ ∃ n, env.hasSynced n = (true, true))
    ∧ (Event.start .RootPhase1 ∈ (startInformersHook s env fuel).trace →
      (readinessPoll env fuel).result = .ok ∧ (∃ n, env.hasSynced n = (true, true))
      ∧ env.configrootphase0Bootstrap = none) := by
  have hok : phaseOutcome s env fuel .PollForMinimalReadiness = .succeeded →
      (readinessPoll env fuel).result = .ok := by
    intro h
    simp only [phaseOutcome] at h
    cases hr : (readinessPoll env fuel).result <;>
      simp [hr, PollResult.toPhaseOutcome] at h ⊢
  have h0 : phaseOutcome s env fuel .RootPhase0 = .succeeded →
      env.configrootphase0Bootstrap = none := by
    intro h
    simp only [phaseOutcome] at h
    cases hr : env.configrootphase0Bootstrap <;> simp [hr] at h ⊢
  obtain ⟨a, b⟩ := expectedTrace_start_root (phaseOutcome s env fuel) s.isRoot
  rw [← hook_trace_eq] at a b
  refine ⟨fun h => ?_, fun h => ?_⟩
  · exact ⟨hok (a h), readinessPoll_ok_observed env fuel (hok (a h))⟩
  · exact ⟨hok (b h).1, readinessPoll_ok_observed env fuel (hok (b h).1), h0 (b h).2⟩

/-- C10, amended: in every run of the hook on the root shard, `RootPhase0` starts only
after the cache-sync completion of the watchers started by `StartDependentWatchers` (the
readiness poll observing both informers as synced), and `RootPhase1` starts only after
that cache-sync completion and after the completion of `RootPhase0`; `RootPhase0` never
completes before the watchers are observed as synced, what it does complete before is the
second cache sync (the wait on all kcp informers). Both root phases do start in a run that
returns without an abort. A root phase starts only in a run in which both informers did
report `HasSynced` in some round of the readiness poll, and `RootPhase1` only if moreover
`configrootphase0.Bootstrap` returned no error. -/
theorem watchers_synced_then_root_phases (s : Server) (env : HookEnv) (fuel : Nat)
    (hroot : s.isRoot = true) :
    (Event.start .RootPhase0 ∈ (startInformersHook s env fuel).trace →
      Precedes (.done .PollForMinimalReadiness) (.start .RootPhase0)
        (startInformersHook s env fuel).trace)
    ∧ (Event.start .RootPhase1 ∈ (startInformersHook s env fuel).trace →
      Precedes (.done .RootPhase0) (.start .RootPhase1) (startInformersHook s env fuel).trace
      ∧ Precedes (.done .PollForMinimalReadiness) (.start .RootPhase1)
          (startInformersHook s env fuel).trace)
    ∧ ¬ Precedes (.done .RootPhase0) (.done .PollForMinimalReadiness)
          (startInformersHook s env fuel).trace
    ∧ (Event.done .RootPhase0 ∈ (startInformersHook s env fuel).trace →
        Event.done .SecondCacheSync ∈ (startInformersHook s env fuel).trace →
        Precedes (.done .RootPhase0) (.done .SecondCacheSync)
          (startInformersHook s env fuel).trace)
    ∧ ((startInformersHook s env fuel).result = .returned none →
        (∀ p, Event.abort p ∉ (startInformersHook s env fuel).trace) →
        Event.start .RootPhase0 ∈ (startInformersHook s env fuel).trace
        ∧ Event.start .RootPhase1 ∈ (startInformersHook s env fuel).trace)
    ∧ (Event.start .RootPhase0 ∈ (startInformersHook s env fuel).trace →
        (readinessPoll env fuel).result = .ok ∧ ∃ n, env.hasSynced n = (true, true))
    ∧ (Event.start .RootPhase1 ∈ (startInformersHook s env fuel).trace →
        (readinessPoll env fuel).result = .ok ∧ (∃ n, env.hasSynced n = (true, true))
        ∧ env.configrootphase0Bootstrap = none) := by
  obtain ⟨a, b, c, d⟩ := hook_root_order s env fuel
  exact ⟨a, b, c, d, hook_root_phases_started s env fuel hroot,
    (hook_root_start_observed s env fuel).1, (hook_root_start_observed s env fuel).2⟩

/-- Witness for C10: the root shard with every collaborator succeeding. -/
theorem watchers_synced_then_root_phases_witness :
    (serverWith true [] "root").isRoot = true
    ∧ Precedes (.done .PollForMinimalReadiness) (.start .RootPhase0)
        (startInformersHook (serverWith true [] "root") quietHookEnv 2).trace
    ∧ Precedes (.done .RootPhase0) (.start .RootPhase1)
        (startInformersHook (serverWith true [] "root") quietHookEnv 2).trace
    ∧ Precedes (.done .PollForMinimalReadiness) (.start .RootPhase1)
        (startInformersHook (serverWith true [] "root") quietHookEnv 2).trace :=
  ⟨by decide,
    (watchers_synced_then_root_phases (serverWith true [] "root") quietHookEnv 2
      (by decide)).1 (by decide),
    (watchers_synced_then_root_phases (serverWith true [] "root") quietHookEnv 2
      (by decide)).2.1 (by decide)⟩

end Kcp
